import Mathlib

/-! # Lock-context protocol of the Hazelcast Go client

Verification of `examples/map/lock/main.go` and of the severity levels of
`core/logger/logger.go`.

The development has three layers.

* `Hazelcast.Logger`: the seven level constants of `logger.go`.
* `Hazelcast.lockAndIncrement`: the function of `main.go`, run against an arbitrary map
  whose calls return (the results of `Lock`, `Get`, `Set`, `Unlock` are inputs), with Go's
  `defer`/`panic` discipline made explicit and every call on the map and on the wait group
  recorded in order; `Hazelcast.lockAndIncrementWithWaitGroup` adds the counter of the wait
  group and the panic of `wg.Done()` on a counter that goes negative.
* `Hazelcast.Coordinator` and `Hazelcast.System`: the per-key ownership table described by
  the specification, and the interleaved execution of `N` goroutines running
  `lockAndIncrement` against it, one map operation per step.
-/

namespace Hazelcast

/-! ## Severity levels -/

namespace Logger

/-- Constant `PanicLevel = iota`, the first of the block: 0. -/
def PanicLevel : Int := 0
/-- Constant `FatalLevel`, the second of the block (`iota` = 1). -/
def FatalLevel : Int := 1
/-- Constant `ErrorLevel`, the third of the block (`iota` = 2). -/
def ErrorLevel : Int := 2
/-- Constant `WarnLevel`, the fourth of the block (`iota` = 3). -/
def WarnLevel : Int := 3
/-- Constant `InfoLevel`, the fifth of the block (`iota` = 4). -/
def InfoLevel : Int := 4
/-- Constant `DebugLevel`, the sixth of the block (`iota` = 5). -/
def DebugLevel : Int := 5
/-- Constant `TraceLevel`, the seventh of the block (`iota` = 6). -/
def TraceLevel : Int := 6

/-- The seven severities, named as the logging operations of the `Logger` interface. -/
inductive Severity
  | Panic | Fatal | Error | Warn | Info | Debug | Trace
deriving DecidableEq, Repr

/-- The level constant that stands for a severity. -/
def Severity.level : Severity → Int
  | .Panic => PanicLevel
  | .Fatal => FatalLevel
  | .Error => ErrorLevel
  | .Warn => WarnLevel
  | .Info => InfoLevel
  | .Debug => DebugLevel
  | .Trace => TraceLevel

/-- The severities from highest to lowest, in the words of the specification
("Severity levels, highest to lowest: Panic, Fatal, Error, Warn, Info, Debug, Trace"). -/
def highestToLowest : List Severity :=
  [.Panic, .Fatal, .Error, .Warn, .Info, .Debug, .Trace]

/-- Severity `a` is strictly higher than `b`: it comes earlier in `highestToLowest`. -/
def Severity.higherThan (a b : Severity) : Prop :=
  highestToLowest.indexOf a < highestToLowest.indexOf b

instance (a b : Severity) : Decidable (a.higherThan b) := by
  unfold Severity.higherThan; infer_instance

end Logger

/-! ## Values, errors and 64-bit integers -/

/-- A Go `error` value, identified by its message. -/
abbrev Err := String

/-- Smallest `int64`. -/
def minInt64 : Int := -(2 ^ 63)
/-- Largest `int64`. -/
def maxInt64 : Int := 2 ^ 63 - 1

/-- The integer is representable as an `int64`. -/
def inInt64 (n : Int) : Prop := minInt64 ≤ n ∧ n ≤ maxInt64

instance (n : Int) : Decidable (inInt64 n) := by unfold inInt64; infer_instance

/-- Reduction of a mathematical integer to the `int64` it denotes in two's complement. -/
def wrapInt64 (x : Int) : Int := (x + 2 ^ 63) % 2 ^ 64 - 2 ^ 63

/-- A Go `interface{}` as returned by `Map.Get`: `nil`, an `int64`, or a value of any other
dynamic type. -/
inductive Value
  | nil
  | int64 (n : Int)
  | other (desc : String)
deriving DecidableEq, Repr

/-- Modelled from the spec: the Lock Context of the data model (section 3), which is not
part of the sources at hand (`Map.NewLockContext` lives in the client library). It carries a
process-unique identifier; the parent relation is kept as section 9 proposes, by a shared
group identifier that is the holder identity: a fresh context is its own group, a derived
context inherits the group of its parent. -/
structure LockContext where
  id : Nat
  group : Nat
deriving DecidableEq, Repr

/-! ## `lockAndIncrement`, sequentially -/

/-- The map as `lockAndIncrement` uses it: five operations on a state `σ`, each returning its
Go result. `Lock`, `Set` and `Unlock` return an `error` (`none` is `nil`); `Get` returns a
value or an error. -/
structure MapAPI (σ : Type) where
  NewLockContext : σ → LockContext × σ
  Lock : LockContext → String → σ → Option Err × σ
  Get : LockContext → String → σ → Except Err Value × σ
  Set : LockContext → String → Value → σ → Option Err × σ
  Unlock : LockContext → String → σ → Option Err × σ

/-- A call issued by `lockAndIncrement`, with its arguments (`NewLockContext` with the
context it returned). `Done` is `wg.Done()`; what it does to the counter of the wait group
is in `runDeferredOn`. -/
inductive Call
  | NewLockContext (ctx : LockContext)
  | Lock (ctx : LockContext) (key : String)
  | Get (ctx : LockContext) (key : String)
  | Set (ctx : LockContext) (key : String) (value : Value)
  | Unlock (ctx : LockContext) (key : String)
  | Done
deriving DecidableEq, Repr

/-- The value a panic carries: an error passed to `panic(err)`, or the run-time error of the
failed type assertion `v.(int64)`. -/
inductive PanicValue
  | error (err : Err)
  | typeAssertion (v : Value)
deriving DecidableEq, Repr

/-- A call registered with `defer`. -/
inductive Deferred
  | Unlock (ctx : LockContext) (key : String)
  | Done
deriving DecidableEq, Repr

/-- The activation of `lockAndIncrement` at the point where its body stops, by falling off
the end (`panicked = none`) or by panicking: the calls made so far, the map state and the
deferred calls, most recently deferred first. -/
structure Frame (σ : Type) where
  panicked : Option PanicValue
  calls : List Call
  state : σ
  deferred : List Deferred

/-- What `lockAndIncrement` does as far as the map is concerned: the panic its body raised,
if any, and the calls it made, in order, with the map state they left. The wait group is
left aside here and brought in by `lockAndIncrementWithWaitGroup`. -/
structure Run (σ : Type) where
  panicked : Option PanicValue
  calls : List Call
  state : σ

/-- The statement `if v != nil { intValue = v.(int64) }`: the new `intValue`, or `none` when
the type assertion panics. -/
def assertInt64 (v : Value) (intValue : Int) : Option Int :=
  match v with
  | .nil => some intValue
  | .int64 n => some n
  | .other _ => none

/-- The body of `lockAndIncrement` (lines 33-60), up to the point where it returns or
panics. -/
def lockAndIncrementBody {σ : Type} (m : MapAPI σ) (key : String) (s : σ) : Frame σ :=
  -- defer wg.Done()
  let deferred := [Deferred.Done]
  -- intValue := int64(0)
  let intValue : Int := 0
  -- lockCtx := myMap.NewLockContext(context.Background())
  match m.NewLockContext s with
  | (lockCtx, s) =>
    let calls := [Call.NewLockContext lockCtx]
    -- if err := myMap.Lock(lockCtx, key); err != nil { panic(err) }
    match m.Lock lockCtx key s with
    | (some err, s) => ⟨some (.error err), calls ++ [.Lock lockCtx key], s, deferred⟩
    | (none, s) =>
      let calls := calls ++ [.Lock lockCtx key]
      -- defer myMap.Unlock(lockCtx, key)
      let deferred := Deferred.Unlock lockCtx key :: deferred
      -- v, err := myMap.Get(lockCtx, key); if err != nil { panic(err) }
      match m.Get lockCtx key s with
      | (.error err, s) => ⟨some (.error err), calls ++ [.Get lockCtx key], s, deferred⟩
      | (.ok v, s) =>
        let calls := calls ++ [.Get lockCtx key]
        -- if v != nil { intValue = v.(int64) }
        match assertInt64 v intValue with
        | none => ⟨some (.typeAssertion v), calls, s, deferred⟩
        | some intValue =>
          -- intValue++
          let intValue := wrapInt64 (intValue + 1)
          -- if err = myMap.Set(lockCtx, key, intValue); err != nil { panic(err) }
          match m.Set lockCtx key (.int64 intValue) s with
          | (some err, s) =>
            ⟨some (.error err), calls ++ [.Set lockCtx key (.int64 intValue)], s, deferred⟩
          | (none, s) => ⟨none, calls ++ [.Set lockCtx key (.int64 intValue)], s, deferred⟩

/-- Go runs the deferred calls when the function returns and when it panics, last deferred
first. The error returned by a deferred `Unlock` is dropped. The deferred `wg.Done()` is
logged; `runDeferredOn` also applies it to the counter of the wait group. -/
def runDeferred {σ : Type} (m : MapAPI σ) : List Deferred → List Call → σ → List Call × σ
  | [], calls, s => (calls, s)
  | .Unlock ctx key :: rest, calls, s =>
    runDeferred m rest (calls ++ [.Unlock ctx key]) (m.Unlock ctx key s).2
  | .Done :: rest, calls, s => runDeferred m rest (calls ++ [.Done]) s

/-- One call of `lockAndIncrement(myMap, key, wg)`, the wait group left aside. -/
def lockAndIncrement {σ : Type} (m : MapAPI σ) (key : String) (s : σ) : Run σ :=
  let f := lockAndIncrementBody m key s
  let (calls, s) := runDeferred m f.deferred f.calls f.state
  ⟨f.panicked, calls, s⟩

/-- A panic that reaches the caller of `lockAndIncrement`: one raised in the body, or the
panic of `wg.Done()` on a wait group whose counter goes negative ("sync: negative WaitGroup
counter"). -/
inductive CallPanic
  | body (p : PanicValue)
  | negativeWaitGroupCounter
deriving DecidableEq, Repr

/-- What the caller of `lockAndIncrement(myMap, key, wg)` observes: the panics that reach it,
in the order they were raised (none when the call returns normally), the calls made, the
map state they left and the counter of the wait group. -/
structure Completion (σ : Type) where
  panics : List CallPanic
  calls : List Call
  state : σ
  counter : Int

/-- The deferred calls, last deferred first, on the map and on the wait group. `wg.Done()` is
`wg.Add(-1)`: it takes one off the counter and panics when that makes the counter negative.
A panic of a deferred call comes on top of the panic that is unwinding. -/
def runDeferredOn {σ : Type} (m : MapAPI σ) : List Deferred → Completion σ → Completion σ
  | [], r => r
  | .Unlock ctx key :: rest, r =>
    runDeferredOn m rest
      { r with calls := r.calls ++ [.Unlock ctx key], state := (m.Unlock ctx key r.state).2 }
  | .Done :: rest, r =>
    runDeferredOn m rest
      { r with
        calls := r.calls ++ [.Done]
        counter := r.counter - 1
        panics :=
          if r.counter - 1 < 0 then r.panics ++ [.negativeWaitGroupCounter] else r.panics }

/-- One call of `lockAndIncrement(myMap, key, wg)` with a wait group whose counter is `wg`
when the call is made. -/
def lockAndIncrementWithWaitGroup {σ : Type} (m : MapAPI σ) (key : String) (wg : Int)
    (s : σ) : Completion σ :=
  let f := lockAndIncrementBody m key s
  runDeferredOn m f.deferred ⟨f.panicked.toList.map .body, f.calls, f.state, wg⟩

/-- A map that answers from a script: the context it mints and the results of `Lock`, `Get`,
`Set` and `Unlock`; its state counts the calls it has received. -/
def scripted (ctx : LockContext) (lockErr : Option Err) (got : Except Err Value)
    (setErr unlockErr : Option Err) : MapAPI Nat where
  NewLockContext := fun s => (ctx, s + 1)
  Lock := fun _ _ s => (lockErr, s + 1)
  Get := fun _ _ s => (got, s + 1)
  Set := fun _ _ _ s => (setErr, s + 1)
  Unlock := fun _ _ s => (unlockErr, s + 1)

/-- The call is an `Unlock`. -/
def Call.isUnlock : Call → Bool
  | .Unlock _ _ => true
  | _ => false

/-- The call is a `Set`. -/
def Call.isSet : Call → Bool
  | .Set _ _ _ => true
  | _ => false

/-- The call is a `Get`, a `Set` or an `Unlock`. -/
def Call.afterLock : Call → Bool
  | .Get _ _ => true
  | .Set _ _ _ => true
  | .Unlock _ _ => true
  | _ => false

/-! ## The lock coordinator of the specification -/

/-- Modelled from the spec: the error taxonomy of section 7 (the client library that raises
these errors is not part of the sources at hand). -/
inductive LockError
  | CoordinationError
  | NotOwnerError
  | UsageError
deriving DecidableEq, Repr

/-- The Go `error` a caller of the map receives for an error of the taxonomy. -/
def LockError.toErr : LockError → Err
  | .CoordinationError => "CoordinationError"
  | .NotOwnerError => "NotOwnerError"
  | .UsageError => "UsageError"

/-- Modelled from the spec: the Key Lock Entry of the data model (section 3), the holding
context (absent if unlocked) and the hold count. The ownership table lives in the remote
map service, outside the sources at hand. -/
structure KeyLockEntry where
  holder : Option LockContext
  holdCount : Nat
deriving DecidableEq, Repr

/-- Modelled from the spec: the state the Scoped Map Facade works on (sections 2 and 3),
which the sources at hand only call into: the per-key ownership table (an entry is created
lazily by the first `lock` of its key), the stored values (`Value.nil` where nothing is
stored), the supply of process-unique context identifiers, and whether the connection to
the map service is up. -/
structure Coordinator where
  entries : String → Option KeyLockEntry
  values : String → Value
  nextID : Nat
  connected : Bool

/-- Modelled from the spec: what an operation of the facade does to its caller (section 4.2,
section 5): it returns, with a result or an error and the state it leaves, or it suspends
the caller. -/
inductive Outcome (α : Type)
  | done (result : Except LockError α) (next : Coordinator)
  | blocked

/-- Modelled from the spec: `newContext` of section 4.1, "a fresh, globally unique token with
no parent. Never fails." -/
def Coordinator.newContext (s : Coordinator) : LockContext × Coordinator :=
  (⟨s.nextID, s.nextID⟩, { s with nextID := s.nextID + 1 })

/-- Modelled from the spec: `derive` of section 4.1, "a new token whose ownership-matching
relation includes `parent`": the child inherits the holder identity of its parent. -/
def Coordinator.derive (parent : LockContext) (s : Coordinator) : LockContext × Coordinator :=
  (⟨s.nextID, parent.group⟩, { s with nextID := s.nextID + 1 })

/-- Modelled from the spec: `isSameHolder` of section 4.1 ("true if `a == b` or `a` is a
descendant of `b` (or vice versa) via the derivation chain"), as the pure comparison of
shared group identifiers that section 9 proposes: a context and everything derived from it
carry the same group. -/
def isSameHolder (a b : LockContext) : Bool :=
  a.group == b.group

/-- The context holding the key's lock, if any. -/
def Coordinator.holder (s : Coordinator) (key : String) : Option LockContext :=
  match s.entries key with
  | none => none
  | some e => e.holder

/-- The table with the entry of `key` replaced. -/
def Coordinator.setEntry (s : Coordinator) (key : String) (e : KeyLockEntry) : Coordinator :=
  { s with entries := fun k => if k = key then some e else s.entries k }

/-- Modelled from the spec: `lock(ctx, key)` of section 4.2. The caller is suspended while
the key has a holder that is not the same holder as `ctx`; otherwise the holder is set (or
stays) and the hold count goes up by one. A lost connection gives `CoordinationError`. -/
def Coordinator.lock (ctx : LockContext) (key : String) (s : Coordinator) : Outcome Unit :=
  if !s.connected then .done (.error .CoordinationError) s
  else
    match s.entries key with
    | none => .done (.ok ()) (s.setEntry key ⟨some ctx, 1⟩)
    | some e =>
      match e.holder with
      | none => .done (.ok ()) (s.setEntry key ⟨some ctx, e.holdCount + 1⟩)
      | some h =>
        if isSameHolder h ctx then .done (.ok ()) (s.setEntry key ⟨some h, e.holdCount + 1⟩)
        else .blocked

/-- Modelled from the spec: `unlock(ctx, key)` of section 4.2. It requires
`isSameHolder(entry.holder, ctx)`, decrements the hold count and clears the holder when the
count reaches 0; without an entry, or when the caller does not hold the lock, it fails with
`NotOwnerError` and changes nothing. -/
def Coordinator.unlock (ctx : LockContext) (key : String) (s : Coordinator) : Outcome Unit :=
  match s.entries key with
  | none => .done (.error .NotOwnerError) s
  | some e =>
    match e.holder with
    | none => .done (.error .NotOwnerError) s
    | some h =>
      if isSameHolder h ctx then
        let n := e.holdCount - 1
        .done (.ok ()) (s.setEntry key ⟨if n = 0 then none else some h, n⟩)
      else .done (.error .NotOwnerError) s

/-- Modelled from the spec: the condition under which `get` and `set` suspend their caller
(section 4.2), "the key is currently locked by a holder other than `ctx` (or no context is
supplied while the key is locked)". -/
def Coordinator.lockedAgainst (s : Coordinator) (key : String) (ctx : Option LockContext) :
    Bool :=
  match s.holder key, ctx with
  | none, _ => false
  | some _, none => true
  | some h, some c => !isSameHolder h c

/-- Modelled from the spec: `get(ctx, key)` and `get(key)` of section 4.2. The read blocks
while the key is locked by another holder; a lost connection gives `CoordinationError`. -/
def Coordinator.get (ctx : Option LockContext) (key : String) (s : Coordinator) :
    Outcome Value :=
  if !s.connected then .done (.error .CoordinationError) s
  else if s.lockedAgainst key ctx then .blocked
  else .done (.ok (s.values key)) s

/-- Modelled from the spec: `set(ctx, key, value)` and `set(key, value)` of section 4.2,
"symmetric to `get`". -/
def Coordinator.set (ctx : Option LockContext) (key : String) (value : Value)
    (s : Coordinator) : Outcome Unit :=
  if !s.connected then .done (.error .CoordinationError) s
  else if s.lockedAgainst key ctx then .blocked
  else .done (.ok ()) { s with values := fun k => if k = key then value else s.values k }

/-- The key's lock is free: no entry yet, or an entry without holder and with hold count
0. -/
def Coordinator.unlocked (s : Coordinator) (key : String) : Prop :=
  s.entries key = none ∨ s.entries key = some ⟨none, 0⟩

instance (s : Coordinator) (key : String) : Decidable (s.unlocked key) := by
  unfold Coordinator.unlocked; infer_instance

/-- A map service that is connected, holds the given values and has no lock entry yet. -/
def Coordinator.fresh (values : String → Value) : Coordinator where
  entries := fun _ => none
  values := values
  nextID := 0
  connected := true

/-- A map service that is connected and holds nothing: no value, no lock entry. -/
def Coordinator.empty : Coordinator :=
  Coordinator.fresh fun _ => .nil

/-! ## `N` goroutines running `lockAndIncrement` -/

/-- A goroutine running `lockAndIncrement`, between two of its calls: the call it makes next
and its local variables. -/
inductive Goroutine
  /-- Entered, with `wg.Done` deferred; next: `NewLockContext` (line 36). -/
  | start
  /-- Next: `Lock(lockCtx, key)` (line 39). -/
  | locking (lockCtx : LockContext)
  /-- The lock is taken and `Unlock` is deferred; next: `Get(lockCtx, key)` (line 46). -/
  | getting (lockCtx : LockContext)
  /-- The value is read and incremented; next: `Set(lockCtx, key, intValue)` (line 58). -/
  | setting (lockCtx : LockContext) (intValue : Int)
  /-- The body has returned or panicked; next: the deferred `Unlock(lockCtx, key)`. -/
  | unlocking (lockCtx : LockContext) (panicked : Option PanicValue)
  /-- Next: the deferred `wg.Done()`. -/
  | signalling (panicked : Option PanicValue)
  /-- The call is over. -/
  | exited (panicked : Option PanicValue)
deriving DecidableEq, Repr

/-- The goroutine is between its successful `Lock` and its `Unlock`. -/
def Goroutine.inCriticalSection : Goroutine → Bool
  | .getting _ => true
  | .setting _ _ => true
  | .unlocking _ _ => true
  | _ => false

/-- The goroutine's call is over. -/
def Goroutine.isExited : Goroutine → Bool
  | .exited _ => true
  | _ => false

/-- The lock context the goroutine has minted, once it has. -/
def Goroutine.lockCtx : Goroutine → Option LockContext
  | .locking c => some c
  | .getting c => some c
  | .setting c _ => some c
  | .unlocking c _ => some c
  | _ => none

/-- The program: the map service, the goroutines started by `main`, and the counter of the
wait group. -/
structure System where
  coord : Coordinator
  goroutines : List Goroutine
  wg : Int

/-- The next call of one goroutine, against the coordinator: the goroutine after the call
with the state the call leaves, or `none` when the call blocks or the goroutine has
exited. -/
def Goroutine.step (key : String) (g : Goroutine) (s : Coordinator) (wg : Int) :
    Option (Goroutine × Coordinator × Int) :=
  match g with
  | .start =>
    -- lockCtx := myMap.NewLockContext(context.Background())
    match s.newContext with
    | (lockCtx, s) => some (.locking lockCtx, s, wg)
  | .locking lockCtx =>
    -- if err := myMap.Lock(lockCtx, key); err != nil { panic(err) }
    match s.lock lockCtx key with
    | .blocked => none
    | .done (.error err) s => some (.signalling (some (.error err.toErr)), s, wg)
    | .done (.ok ()) s => some (.getting lockCtx, s, wg)
  | .getting lockCtx =>
    -- v, err := myMap.Get(lockCtx, key); if err != nil { panic(err) }
    match s.get (some lockCtx) key with
    | .blocked => none
    | .done (.error err) s => some (.unlocking lockCtx (some (.error err.toErr)), s, wg)
    | .done (.ok v) s =>
      -- if v != nil { intValue = v.(int64) }; intValue++
      match assertInt64 v 0 with
      | none => some (.unlocking lockCtx (some (.typeAssertion v)), s, wg)
      | some intValue => some (.setting lockCtx (wrapInt64 (intValue + 1)), s, wg)
  | .setting lockCtx intValue =>
    -- if err = myMap.Set(lockCtx, key, intValue); err != nil { panic(err) }
    match s.set (some lockCtx) key (.int64 intValue) with
    | .blocked => none
    | .done (.error err) s => some (.unlocking lockCtx (some (.error err.toErr)), s, wg)
    | .done (.ok ()) s => some (.unlocking lockCtx none, s, wg)
  | .unlocking lockCtx panicked =>
    -- deferred: myMap.Unlock(lockCtx, key), its error dropped
    match s.unlock lockCtx key with
    | .blocked => none
    | .done _ s => some (.signalling panicked, s, wg)
  | .signalling panicked =>
    -- deferred: wg.Done()
    some (.exited panicked, s, wg - 1)
  | .exited _ => none

/-- Goroutine `i` makes its next call. -/
def System.step (key : String) (i : Nat) (s : System) : Option System :=
  match s.goroutines[i]? with
  | none => none
  | some g =>
    match g.step key s.coord s.wg with
    | none => none
    | some (g, c, wg) => some ⟨c, s.goroutines.set i g, wg⟩

/-- The goroutines make their calls in the order of the schedule, a list of goroutine
indices; `none` when the schedule asks for a call that cannot be made. -/
def System.run (key : String) : List Nat → System → Option System
  | [], s => some s
  | i :: rest, s =>
    match s.step key i with
    | none => none
    | some s => System.run key rest s

/-- The program after `main` has called `wg.Add(n)` and started `n` goroutines (lines
81-85): none of them has made a call yet. -/
def System.init (c : Coordinator) (n : Nat) : System :=
  ⟨c, List.replicate n .start, n⟩

/-- Every goroutine's call is over. -/
def System.allExited (s : System) : Bool :=
  s.goroutines.all Goroutine.isExited

namespace Main

/-- The constant `goroutineCount` of `main` (line 64). -/
def goroutineCount : Nat := 100

/-- The constant `key` of `main` (line 65). -/
def key : String := "counter"

/-- The program of `main` at line 86: the client has handed out a map that holds nothing,
`wg.Add(goroutineCount)` is done and the loop has started `goroutineCount` goroutines on
`key`. -/
def started : System :=
  System.init Coordinator.empty goroutineCount

/-- The final read of `main` (line 90), `myMap.Get(context.Background(), key)`: a `get`
without lock context. -/
def lastValue (s : System) : Outcome Value :=
  s.coord.get none key

end Main

/-- Ranks the program points of `lockAndIncrement` in program order. -/
def Goroutine.rank : Goroutine → Nat
  | .start => 0
  | .locking _ => 1
  | .getting _ => 2
  | .setting _ _ => 3
  | .unlocking _ _ => 4
  | .signalling _ => 5
  | .exited _ => 6

/-- Calls made so far, counted through the program points reached. -/
def System.progress (s : System) : Nat :=
  (s.goroutines.map Goroutine.rank).sum

/-- The goroutine has completed its `Set`: 1 once it has, 0 before and when it panicked. -/
def Goroutine.hasSet : Goroutine → Nat
  | .unlocking _ none => 1
  | .signalling none => 1
  | .exited none => 1
  | _ => 0

/-- The panic the goroutine is unwinding with, or has ended with. -/
def Goroutine.panicked : Goroutine → Option PanicValue
  | .unlocking _ p => p
  | .signalling p => p
  | .exited p => p
  | _ => none

/-- 1 for a goroutine whose call is over, 0 otherwise. -/
def Goroutine.exitedCount : Goroutine → Nat
  | .exited _ => 1
  | _ => 0

/-- Number of goroutines that have completed their `Set`. -/
def System.increments (s : System) : Nat :=
  (s.goroutines.map Goroutine.hasSet).sum

/-- The exclusion invariant of the goroutines running `lockAndIncrement` on `key`: the
contexts they minted are pairwise of different holders, a goroutine in its critical section
is the holder of the key's lock with hold count 1, and the lock is free when no goroutine
is in its critical section. -/
structure Excl (key : String) (s : System) : Prop where
  fresh : ∀ (i : Nat) (g : Goroutine) (c : LockContext),
    s.goroutines[i]? = some g → g.lockCtx = some c → c.group < s.coord.nextID
  distinct : ∀ (i j : Nat) (gi gj : Goroutine) (ci cj : LockContext),
    s.goroutines[i]? = some gi → s.goroutines[j]? = some gj →
    gi.lockCtx = some ci → gj.lockCtx = some cj → ci.group = cj.group → i = j
  held : ∀ (i : Nat) (g : Goroutine), s.goroutines[i]? = some g →
    g.inCriticalSection = true →
    ∃ c, g.lockCtx = some c ∧ s.coord.entries key = some ⟨some c, 1⟩
  free : (∀ (i : Nat) (g : Goroutine), s.goroutines[i]? = some g →
    g.inCriticalSection = false) → s.coord.unlocked key

/-- The counting invariant, for a map that is connected and held `n0` under `key` (absent
counting as 0) when the goroutines were started: the stored value is `n0` plus the number
of completed `Set` calls, a goroutine about to `Set` carries the stored value plus one, no
goroutine has panicked, and the wait group counts the goroutines that have not exited. -/
structure Inv (key : String) (n0 : Int) (s : System) : Prop where
  excl : Excl key s
  connected : s.coord.connected = true
  value : assertInt64 (s.coord.values key) 0 = some (wrapInt64 (n0 + s.increments))
  stored : 0 < s.increments → s.coord.values key = .int64 (wrapInt64 (n0 + s.increments))
  pending : ∀ (i : Nat) (c : LockContext) (x : Int), s.goroutines[i]? = some (.setting c x) →
    x = wrapInt64 (n0 + s.increments + 1)
  noPanic : ∀ (i : Nat) (g : Goroutine), s.goroutines[i]? = some g → g.panicked = none
  waitGroup :
    s.wg + ((s.goroutines.map Goroutine.exitedCount).sum : Nat) = s.goroutines.length

/-! ## Histories of facade operations -/

/-- Modelled from the spec: the operation surface of the Scoped Map Facade (section 4.2),
as issued by any caller, with or without a lock context for `get` and `set`. -/
inductive FacadeOp
  | lock (ctx : LockContext) (key : String)
  | unlock (ctx : LockContext) (key : String)
  | get (ctx : Option LockContext) (key : String)
  | set (ctx : Option LockContext) (key : String) (value : Value)
deriving DecidableEq, Repr

/-- The state an operation leaves when it returns without error; `none` when it blocks or
fails. -/
def Coordinator.perform (op : FacadeOp) (s : Coordinator) : Option Coordinator :=
  match op with
  | .lock ctx key =>
    match s.lock ctx key with
    | .done (.ok _) s => some s
    | _ => none
  | .unlock ctx key =>
    match s.unlock ctx key with
    | .done (.ok _) s => some s
    | _ => none
  | .get ctx key =>
    match s.get ctx key with
    | .done (.ok _) s => some s
    | _ => none
  | .set ctx key value =>
    match s.set ctx key value with
    | .done (.ok _) s => some s
    | _ => none

/-- A history: operations that returned without error, one after the other. -/
def Coordinator.performAll : List FacadeOp → Coordinator → Option Coordinator
  | [], s => some s
  | op :: rest, s =>
    match s.perform op with
    | none => none
    | some s => Coordinator.performAll rest s

/-- What an operation adds to the number of open `[lock, unlock]` intervals of the holder
`ctx` on `key`: a `lock` by that holder opens one, an `unlock` by that holder closes one. -/
def FacadeOp.holdDelta (ctx : LockContext) (key : String) : FacadeOp → Int
  | .lock c k => if isSameHolder c ctx = true ∧ k = key then 1 else 0
  | .unlock c k => if isSameHolder c ctx = true ∧ k = key then -1 else 0
  | _ => 0

/-- Number of `[lock, unlock]` intervals of the holder `ctx` on `key` that are open after the
history: its locks so far minus its unlocks. -/
def openIntervals (history : List FacadeOp) (ctx : LockContext) (key : String) : Int :=
  (history.map (FacadeOp.holdDelta ctx key)).sum

/-- The ownership table agrees with the history on `key`: either the lock is free and no
holder has an open interval, or it is held `n > 0` times and exactly the contexts of the
holder's identity have open intervals, `n` of them. -/
def Agrees (key : String) (s : Coordinator) (history : List FacadeOp) : Prop :=
  (s.unlocked key ∧ ∀ a : LockContext, openIntervals history a key = 0) ∨
  ∃ (h : LockContext) (n : Nat), s.entries key = some ⟨some h, n⟩ ∧ 0 < n ∧
    ∀ a : LockContext, openIntervals history a key = if isSameHolder h a = true then (n : Int) else 0

/-! # Theorems -/

/-! ## 64-bit arithmetic -/

theorem wrapInt64_of_inInt64 {x : Int} (h : inInt64 x) : wrapInt64 x = x := by
  unfold inInt64 minInt64 maxInt64 at h
  unfold wrapInt64
  omega

theorem inInt64_wrapInt64 (x : Int) : inInt64 (wrapInt64 x) := by
  unfold inInt64 minInt64 maxInt64 wrapInt64
  omega

theorem wrapInt64_wrapInt64_add (x y : Int) :
    wrapInt64 (wrapInt64 x + y) = wrapInt64 (x + y) := by
  unfold wrapInt64
  omega

theorem wrapInt64_modEq (x : Int) : (wrapInt64 x - x) % 2 ^ 64 = 0 := by
  unfold wrapInt64
  omega

/-! ## The five paths through `lockAndIncrement` -/

section Paths
variable {σ : Type} (m : MapAPI σ) (key : String) {s s1 s2 s3 s4 : σ} {c : LockContext}

theorem run_lock_error {e : Err} (hNew : m.NewLockContext s = (c, s1))
    (hLock : m.Lock c key s1 = (some e, s2)) :
    lockAndIncrement m key s
      = ⟨some (.error e), [.NewLockContext c, .Lock c key, .Done], s2⟩ := by
  simp [lockAndIncrement, lockAndIncrementBody, runDeferred, hNew, hLock]

theorem run_get_error {e : Err} (hNew : m.NewLockContext s = (c, s1))
    (hLock : m.Lock c key s1 = (none, s2)) (hGet : m.Get c key s2 = (.error e, s3)) :
    lockAndIncrement m key s =
      ⟨some (.error e), [.NewLockContext c, .Lock c key, .Get c key, .Unlock c key, .Done],
        (m.Unlock c key s3).2⟩ := by
  simp [lockAndIncrement, lockAndIncrementBody, runDeferred, hNew, hLock, hGet]

theorem run_bad_type {v : Value} (hNew : m.NewLockContext s = (c, s1))
    (hLock : m.Lock c key s1 = (none, s2)) (hGet : m.Get c key s2 = (.ok v, s3))
    (hv : assertInt64 v 0 = none) :
    lockAndIncrement m key s =
      ⟨some (.typeAssertion v),
        [.NewLockContext c, .Lock c key, .Get c key, .Unlock c key, .Done],
        (m.Unlock c key s3).2⟩ := by
  simp [lockAndIncrement, lockAndIncrementBody, runDeferred, hNew, hLock, hGet, hv]

theorem run_set_returned {v : Value} {n : Int} {r : Option Err}
    (hNew : m.NewLockContext s = (c, s1))
    (hLock : m.Lock c key s1 = (none, s2)) (hGet : m.Get c key s2 = (.ok v, s3))
    (hv : assertInt64 v 0 = some n)
    (hSet : m.Set c key (.int64 (wrapInt64 (n + 1))) s3 = (r, s4)) :
    lockAndIncrement m key s =
      ⟨r.map PanicValue.error,
        [.NewLockContext c, .Lock c key, .Get c key, .Set c key (.int64 (wrapInt64 (n + 1))),
          .Unlock c key, .Done],
        (m.Unlock c key s4).2⟩ := by
  cases r <;>
    simp [lockAndIncrement, lockAndIncrementBody, runDeferred, hNew, hLock, hGet, hv, hSet]

end Paths

/-! ## Claims about the severity levels -/

/-- C8: the seven level constants are pairwise distinct, they are numbered 0 to 6 in the
order `PanicLevel`, `FatalLevel`, `ErrorLevel`, `WarnLevel`, `InfoLevel`, `DebugLevel`,
`TraceLevel`, which is the order from highest to lowest severity, and of any two levels the
one of higher severity has the strictly smaller value. -/
theorem Logger.levels_descend_in_severity :
    [Logger.PanicLevel, Logger.FatalLevel, Logger.ErrorLevel, Logger.WarnLevel,
      Logger.InfoLevel, Logger.DebugLevel, Logger.TraceLevel] = [0, 1, 2, 3, 4, 5, 6] ∧
    [Logger.PanicLevel, Logger.FatalLevel, Logger.ErrorLevel, Logger.WarnLevel,
      Logger.InfoLevel, Logger.DebugLevel, Logger.TraceLevel].Nodup ∧
    Logger.highestToLowest.map Logger.Severity.level = [0, 1, 2, 3, 4, 5, 6] ∧
    (∀ a b : Logger.Severity, a.higherThan b ↔ a.level < b.level) ∧
    (∀ a b : Logger.Severity, a.level = b.level → a = b) := by
  refine ⟨by decide, by decide, by decide, ?_, ?_⟩
  · intro a b
    cases a <;> cases b <;> decide
  · intro a b
    cases a <;> cases b <;> decide

/-! ## Claims about one call of `lockAndIncrement` -/

/-- C2, as stated, fails at the largest `int64`: when `Get` returns `2^63 - 1` and every call
succeeds, the one `Set` of the call carries `-2^63`, and no `Set` carries `2^63`. -/
theorem lockAndIncrement_max_not_successor :
    inInt64 maxInt64 ∧
    (lockAndIncrement (scripted ⟨0, 0⟩ none (.ok (.int64 maxInt64)) none none) "counter" 0).calls
      = [.NewLockContext ⟨0, 0⟩, .Lock ⟨0, 0⟩ "counter", .Get ⟨0, 0⟩ "counter",
          .Set ⟨0, 0⟩ "counter" (.int64 minInt64), .Unlock ⟨0, 0⟩ "counter", .Done] ∧
    Call.Set ⟨0, 0⟩ "counter" (.int64 (maxInt64 + 1)) ∉
      (lockAndIncrement (scripted ⟨0, 0⟩ none (.ok (.int64 maxInt64)) none none)
        "counter" 0).calls := by
  decide

/-- C2 (amended): when `Lock`, `Get` and `Set` succeed and `Get` returns `nil` (`n = 0`) or
the `int64` `n`, the body does not panic and the call makes exactly one `Set`, on the key
and with the context of the call, between the `Get` and the `Unlock`; the value set is
`n + 1` reduced to 64 bits: 1 when nothing was stored, `n + 1` for every `n` below the
largest `int64`. -/
theorem lockAndIncrement_sets_incremented {σ : Type} (m : MapAPI σ) (key : String)
    (s s1 s2 s3 s4 : σ) (c : LockContext) (v : Value) (n : Int)
    (hNew : m.NewLockContext s = (c, s1))
    (hLock : m.Lock c key s1 = (none, s2))
    (hGet : m.Get c key s2 = (.ok v, s3))
    (hv : (v = .nil ∧ n = 0) ∨ v = .int64 n)
    (hn : inInt64 n)
    (hSet : m.Set c key (.int64 (wrapInt64 (n + 1))) s3 = (none, s4)) :
    (lockAndIncrement m key s).panicked = none ∧
    (lockAndIncrement m key s).calls
      = [.NewLockContext c, .Lock c key, .Get c key,
          .Set c key (.int64 (wrapInt64 (n + 1))), .Unlock c key, .Done] ∧
    (lockAndIncrement m key s).calls.filter Call.isSet
      = [.Set c key (.int64 (wrapInt64 (n + 1)))] ∧
    (v = .nil → wrapInt64 (n + 1) = 1) ∧
    (n < maxInt64 → wrapInt64 (n + 1) = n + 1) := by
  have hassert : assertInt64 v 0 = some n := by
    rcases hv with ⟨rfl, rfl⟩ | rfl <;> rfl
  rw [run_set_returned m key hNew hLock hGet hassert hSet]
  refine ⟨rfl, rfl, by simp [Call.isSet], ?_, ?_⟩
  · intro hnil
    rcases hv with ⟨_, rfl⟩ | rfl
    · decide
    · cases hnil
  · intro hlt
    apply wrapInt64_of_inInt64
    unfold inInt64 minInt64 maxInt64 at *
    omega

/-- C2 (amended), at a map that holds 41 under "counter": the one `Set` carries 42. -/
theorem lockAndIncrement_sets_incremented_witness :
    inInt64 41 ∧
    (lockAndIncrement (scripted ⟨7, 7⟩ none (.ok (.int64 41)) none none) "counter" 0).calls
      = [.NewLockContext ⟨7, 7⟩, .Lock ⟨7, 7⟩ "counter", .Get ⟨7, 7⟩ "counter",
          .Set ⟨7, 7⟩ "counter" (.int64 42), .Unlock ⟨7, 7⟩ "counter", .Done] :=
  ⟨by decide,
    (lockAndIncrement_sets_incremented (scripted ⟨7, 7⟩ none (.ok (.int64 41)) none none)
      "counter" 0 1 2 3 4 ⟨7, 7⟩ (.int64 41) 41 rfl rfl rfl (Or.inr rfl) (by decide) rfl).2.1⟩

/-- C3: after a successful `Lock`, on every exit path (`Get` fails, the type assertion fails,
`Set` fails, normal completion) the calls end with exactly one `Unlock`, of the key and with
the context of the `Lock`, followed only by `wg.Done`; every `Get` and `Set` comes before
it. -/
theorem lockAndIncrement_unlocks_once {σ : Type} (m : MapAPI σ) (key : String)
    (s s1 s2 : σ) (c : LockContext)
    (hNew : m.NewLockContext s = (c, s1))
    (hLock : m.Lock c key s1 = (none, s2)) :
    (lockAndIncrement m key s).calls.filter Call.isUnlock = [.Unlock c key] ∧
    ∃ before, (lockAndIncrement m key s).calls = before ++ [.Unlock c key, .Done] ∧
      (before = [.NewLockContext c, .Lock c key, .Get c key] ∨
        ∃ v, before = [.NewLockContext c, .Lock c key, .Get c key, .Set c key v]) := by
  rcases hGet : m.Get c key s2 with ⟨_ | v, s3⟩
  · rw [run_get_error m key hNew hLock hGet]
    exact ⟨by simp [Call.isUnlock], _, rfl, Or.inl rfl⟩
  · cases hv : assertInt64 v 0 with
    | none =>
      rw [run_bad_type m key hNew hLock hGet hv]
      exact ⟨by simp [Call.isUnlock], _, rfl, Or.inl rfl⟩
    | some n =>
      rcases hSet : m.Set c key (.int64 (wrapInt64 (n + 1))) s3 with ⟨r, s4⟩
      rw [run_set_returned m key hNew hLock hGet hv hSet]
      exact ⟨by simp [Call.isUnlock], _, rfl, Or.inr ⟨_, rfl⟩⟩

/-- C3, on each exit path after a successful `Lock`: `Get` fails, the value is a string,
`Set` fails, and normal completion. Every time the call makes its one `Unlock`. -/
theorem lockAndIncrement_unlocks_once_witness :
    ((lockAndIncrement (scripted ⟨7, 7⟩ none (.error "connection lost") none none)
        "counter" 0).panicked = some (.error "connection lost") ∧
      (lockAndIncrement (scripted ⟨7, 7⟩ none (.error "connection lost") none none)
        "counter" 0).calls.filter Call.isUnlock = [.Unlock ⟨7, 7⟩ "counter"]) ∧
    ((lockAndIncrement (scripted ⟨7, 7⟩ none (.ok (.other "seven")) none none)
        "counter" 0).panicked = some (.typeAssertion (.other "seven")) ∧
      (lockAndIncrement (scripted ⟨7, 7⟩ none (.ok (.other "seven")) none none)
        "counter" 0).calls.filter Call.isUnlock = [.Unlock ⟨7, 7⟩ "counter"]) ∧
    ((lockAndIncrement (scripted ⟨7, 7⟩ none (.ok (.int64 7)) (some "connection lost") none)
        "counter" 0).panicked = some (.error "connection lost") ∧
      (lockAndIncrement (scripted ⟨7, 7⟩ none (.ok (.int64 7)) (some "connection lost") none)
        "counter" 0).calls.filter Call.isUnlock = [.Unlock ⟨7, 7⟩ "counter"]) ∧
    ((lockAndIncrement (scripted ⟨7, 7⟩ none (.ok (.int64 7)) none none)
        "counter" 0).panicked = none ∧
      (lockAndIncrement (scripted ⟨7, 7⟩ none (.ok (.int64 7)) none none)
        "counter" 0).calls.filter Call.isUnlock = [.Unlock ⟨7, 7⟩ "counter"]) :=
  ⟨⟨rfl, (lockAndIncrement_unlocks_once
      (scripted ⟨7, 7⟩ none (.error "connection lost") none none)
      "counter" 0 1 2 ⟨7, 7⟩ rfl rfl).1⟩,
    ⟨rfl, (lockAndIncrement_unlocks_once
      (scripted ⟨7, 7⟩ none (.ok (.other "seven")) none none)
      "counter" 0 1 2 ⟨7, 7⟩ rfl rfl).1⟩,
    ⟨rfl, (lockAndIncrement_unlocks_once
      (scripted ⟨7, 7⟩ none (.ok (.int64 7)) (some "connection lost") none)
      "counter" 0 1 2 ⟨7, 7⟩ rfl rfl).1⟩,
    ⟨rfl, (lockAndIncrement_unlocks_once
      (scripted ⟨7, 7⟩ none (.ok (.int64 7)) none none)
      "counter" 0 1 2 ⟨7, 7⟩ rfl rfl).1⟩⟩

/-- C4: when `Lock` returns an error, the call panics with that error after exactly one
`Lock` and no `Get`, `Set` or `Unlock` (only the deferred `wg.Done` follows), and the map is
left in the state in which the failed `Lock` returned. -/
theorem lockAndIncrement_lock_error {σ : Type} (m : MapAPI σ) (key : String)
    (s s1 s2 : σ) (c : LockContext) (e : Err)
    (hNew : m.NewLockContext s = (c, s1))
    (hLock : m.Lock c key s1 = (some e, s2)) :
    (lockAndIncrement m key s).panicked = some (.error e) ∧
    (lockAndIncrement m key s).calls = [.NewLockContext c, .Lock c key, .Done] ∧
    (lockAndIncrement m key s).calls.filter Call.afterLock = [] ∧
    (lockAndIncrement m key s).state = s2 := by
  rw [run_lock_error m key hNew hLock]
  exact ⟨rfl, rfl, by simp [Call.afterLock], rfl⟩

/-- C4, at a map whose `Lock` fails: the panic carries the error of `Lock`, and the map has
received two calls, `NewLockContext` and `Lock`. -/
theorem lockAndIncrement_lock_error_witness :
    (lockAndIncrement (scripted ⟨7, 7⟩ (some "connection lost") (.ok .nil) none none)
        "counter" 0).panicked = some (.error "connection lost") ∧
    (lockAndIncrement (scripted ⟨7, 7⟩ (some "connection lost") (.ok .nil) none none)
        "counter" 0).state = 2 :=
  have h := lockAndIncrement_lock_error
    (scripted ⟨7, 7⟩ (some "connection lost") (.ok .nil) none none) "counter" 0 1 2 ⟨7, 7⟩
    "connection lost" rfl rfl
  ⟨h.1, h.2.2.2⟩

/-- C5: the calls of every execution are, in this order, `NewLockContext`, `Lock`, then,
when the `Lock` succeeded, `Get`, possibly `Set`, and `Unlock`; `Lock`, `Get`, `Set` and
`Unlock` all carry the context that `NewLockContext` returned and the key of the call. The
full sequence is made whenever the body does not panic. -/
theorem lockAndIncrement_call_order {σ : Type} (m : MapAPI σ) (key : String) (s : σ) :
    ((m.Lock (m.NewLockContext s).1 key (m.NewLockContext s).2).1 ≠ none ∧
      (lockAndIncrement m key s).calls
        = [.NewLockContext (m.NewLockContext s).1, .Lock (m.NewLockContext s).1 key,
            .Done]) ∨
    ((m.Lock (m.NewLockContext s).1 key (m.NewLockContext s).2).1 = none ∧
      ((lockAndIncrement m key s).panicked ≠ none ∧
        (lockAndIncrement m key s).calls
          = [.NewLockContext (m.NewLockContext s).1, .Lock (m.NewLockContext s).1 key,
              .Get (m.NewLockContext s).1 key, .Unlock (m.NewLockContext s).1 key, .Done] ∨
        ∃ v, (lockAndIncrement m key s).calls
          = [.NewLockContext (m.NewLockContext s).1, .Lock (m.NewLockContext s).1 key,
              .Get (m.NewLockContext s).1 key, .Set (m.NewLockContext s).1 key v,
              .Unlock (m.NewLockContext s).1 key, .Done])) := by
  rcases hNew : m.NewLockContext s with ⟨c, s1⟩
  rcases hLock : m.Lock c key s1 with ⟨_ | e, s2⟩
  · right
    refine ⟨rfl, ?_⟩
    rcases hGet : m.Get c key s2 with ⟨_ | v, s3⟩
    · rw [run_get_error m key hNew hLock hGet]
      exact Or.inl ⟨by simp, rfl⟩
    · cases hv : assertInt64 v 0 with
      | none =>
        rw [run_bad_type m key hNew hLock hGet hv]
        exact Or.inl ⟨by simp, rfl⟩
      | some n =>
        rcases hSet : m.Set c key (.int64 (wrapInt64 (n + 1))) s3 with ⟨r, s4⟩
        rw [run_set_returned m key hNew hLock hGet hv hSet]
        exact Or.inr ⟨_, rfl⟩
  · left
    rw [run_lock_error m key hNew hLock]
    exact ⟨by simp, rfl⟩

/-- The body panics exactly when `Lock` returns an error, or `Get` does, or `Get` returns a
value that is neither `nil` nor an `int64`, or `Set` does; whatever the deferred `Unlock`
returns changes neither that panic nor the calls made. -/
theorem body_panics_iff {σ : Type} (m : MapAPI σ) (key : String) (s : σ) :
    ((lockAndIncrement m key s).panicked ≠ none ↔
      (m.Lock (m.NewLockContext s).1 key (m.NewLockContext s).2).1 ≠ none ∨
      ((m.Lock (m.NewLockContext s).1 key (m.NewLockContext s).2).1 = none ∧
        ((∃ e, (m.Get (m.NewLockContext s).1 key
            (m.Lock (m.NewLockContext s).1 key (m.NewLockContext s).2).2).1 = .error e) ∨
          (∃ d, (m.Get (m.NewLockContext s).1 key
            (m.Lock (m.NewLockContext s).1 key (m.NewLockContext s).2).2).1
              = .ok (.other d)) ∨
          (∃ v n, (m.Get (m.NewLockContext s).1 key
            (m.Lock (m.NewLockContext s).1 key (m.NewLockContext s).2).2).1 = .ok v ∧
            assertInt64 v 0 = some n ∧
            (m.Set (m.NewLockContext s).1 key (.int64 (wrapInt64 (n + 1)))
              (m.Get (m.NewLockContext s).1 key
                (m.Lock (m.NewLockContext s).1 key (m.NewLockContext s).2).2).2).1
              ≠ none)))) ∧
    (∀ unlock : LockContext → String → σ → Option Err × σ,
      (lockAndIncrement { m with Unlock := unlock } key s).panicked
          = (lockAndIncrement m key s).panicked ∧
        (lockAndIncrement { m with Unlock := unlock } key s).calls
          = (lockAndIncrement m key s).calls) := by
  rcases hNew : m.NewLockContext s with ⟨c, s1⟩
  rcases hLock : m.Lock c key s1 with ⟨_ | e, s2⟩
  · rcases hGet : m.Get c key s2 with ⟨_ | v, s3⟩
    · refine ⟨?_, fun u => ?_⟩
      · rw [run_get_error m key hNew hLock hGet]
        simp
      · rw [run_get_error m key hNew hLock hGet,
          run_get_error { m with Unlock := u } key hNew hLock hGet]
        exact ⟨rfl, rfl⟩
    · cases hv : assertInt64 v 0 with
      | none =>
        refine ⟨?_, fun u => ?_⟩
        · rw [run_bad_type m key hNew hLock hGet hv]
          cases v <;> simp [assertInt64] at hv ⊢
        · rw [run_bad_type m key hNew hLock hGet hv,
            run_bad_type { m with Unlock := u } key hNew hLock hGet hv]
          exact ⟨rfl, rfl⟩
      | some n =>
        rcases hSet : m.Set c key (.int64 (wrapInt64 (n + 1))) s3 with ⟨r, s4⟩
        refine ⟨?_, fun u => ?_⟩
        · rw [run_set_returned m key hNew hLock hGet hv hSet]
          cases v <;> cases r <;> simp_all [assertInt64]
        · rw [run_set_returned m key hNew hLock hGet hv hSet,
            run_set_returned { m with Unlock := u } key hNew hLock hGet hv hSet]
          exact ⟨rfl, rfl⟩
  · refine ⟨?_, fun u => ?_⟩
    · rw [run_lock_error m key hNew hLock]
      simp
    · rw [run_lock_error m key hNew hLock,
        run_lock_error { m with Unlock := u } key hNew hLock]
      exact ⟨rfl, rfl⟩

/-- The call with its wait group is the call on the map, with one taken off the counter by
the deferred `wg.Done()`, whose panic on a negative counter comes last. -/
theorem withWaitGroup_eq {σ : Type} (m : MapAPI σ) (key : String) (wg : Int) (s : σ) :
    lockAndIncrementWithWaitGroup m key wg s
      = ⟨(lockAndIncrement m key s).panicked.toList.map CallPanic.body
          ++ (if wg ≤ 0 then [.negativeWaitGroupCounter] else []),
        (lockAndIncrement m key s).calls, (lockAndIncrement m key s).state, wg - 1⟩ := by
  have hwg : wg - 1 < 0 ↔ wg ≤ 0 := by omega
  rcases hNew : m.NewLockContext s with ⟨c, s1⟩
  rcases hLock : m.Lock c key s1 with ⟨_ | e, s2⟩
  · rcases hGet : m.Get c key s2 with ⟨_ | v, s3⟩
    · simp only [lockAndIncrementWithWaitGroup, lockAndIncrement, lockAndIncrementBody,
        runDeferredOn, runDeferred, hNew, hLock, hGet, hwg]
      split <;> simp
    · cases hv : assertInt64 v 0 with
      | none =>
        simp only [lockAndIncrementWithWaitGroup, lockAndIncrement, lockAndIncrementBody,
          runDeferredOn, runDeferred, hNew, hLock, hGet, hv, hwg]
        split <;> simp
      | some n =>
        rcases hSet : m.Set c key (.int64 (wrapInt64 (n + 1))) s3 with ⟨_ | e, s4⟩
        · simp only [lockAndIncrementWithWaitGroup, lockAndIncrement, lockAndIncrementBody,
            runDeferredOn, runDeferred, hNew, hLock, hGet, hv, hSet, hwg]
          split <;> simp
        · simp only [lockAndIncrementWithWaitGroup, lockAndIncrement, lockAndIncrementBody,
            runDeferredOn, runDeferred, hNew, hLock, hGet, hv, hSet, hwg]
          split <;> simp
  · simp only [lockAndIncrementWithWaitGroup, lockAndIncrement, lockAndIncrementBody,
      runDeferredOn, runDeferred, hNew, hLock, hwg]
    split <;> simp

/-- C9, as stated, fails on a wait group whose counter is 0: `Lock`, `Get`, `Set` and
`Unlock` all succeed, `Get` returns `nil`, the body does not panic and the six calls are
made, yet the call panics, in the deferred `wg.Done()`. -/
theorem lockAndIncrement_panics_on_zero_counter :
    (scripted ⟨7, 7⟩ none (.ok .nil) none none).Lock ⟨7, 7⟩ "counter" 1 = (none, 2) ∧
    (scripted ⟨7, 7⟩ none (.ok .nil) none none).Get ⟨7, 7⟩ "counter" 2 = (.ok .nil, 3) ∧
    (scripted ⟨7, 7⟩ none (.ok .nil) none none).Set ⟨7, 7⟩ "counter" (.int64 1) 3
      = (none, 4) ∧
    (scripted ⟨7, 7⟩ none (.ok .nil) none none).Unlock ⟨7, 7⟩ "counter" 4 = (none, 5) ∧
    (lockAndIncrementWithWaitGroup (scripted ⟨7, 7⟩ none (.ok .nil) none none)
        "counter" 0 0).calls
      = [.NewLockContext ⟨7, 7⟩, .Lock ⟨7, 7⟩ "counter", .Get ⟨7, 7⟩ "counter",
          .Set ⟨7, 7⟩ "counter" (.int64 1), .Unlock ⟨7, 7⟩ "counter", .Done] ∧
    (lockAndIncrementWithWaitGroup (scripted ⟨7, 7⟩ none (.ok .nil) none none)
        "counter" 0 0).panics = [.negativeWaitGroupCounter] :=
  ⟨rfl, rfl, rfl, rfl, by decide, by decide⟩

/-- C9 (amended): the call panics exactly when the counter of the wait group is not positive
when the call is made (the deferred `wg.Done()` then panics), or `Lock` returns an error, or
`Get` does, or `Get` returns a value that is neither `nil` nor an `int64`, or `Set` does; so
with a positive counter, as `main` arranges with `wg.Add(goroutineCount)`, exactly in the
last four cases. The panics that reach the caller are the panic of the body, if any, and
then that of `wg.Done()`, if any. Whatever the deferred `Unlock` returns changes neither
the panics nor the calls made. -/
theorem lockAndIncrement_panics_iff {σ : Type} (m : MapAPI σ) (key : String) (wg : Int)
    (s : σ) :
    ((lockAndIncrementWithWaitGroup m key wg s).panics ≠ [] ↔
      wg ≤ 0 ∨
      (m.Lock (m.NewLockContext s).1 key (m.NewLockContext s).2).1 ≠ none ∨
      ((m.Lock (m.NewLockContext s).1 key (m.NewLockContext s).2).1 = none ∧
        ((∃ e, (m.Get (m.NewLockContext s).1 key
            (m.Lock (m.NewLockContext s).1 key (m.NewLockContext s).2).2).1 = .error e) ∨
          (∃ d, (m.Get (m.NewLockContext s).1 key
            (m.Lock (m.NewLockContext s).1 key (m.NewLockContext s).2).2).1
              = .ok (.other d)) ∨
          (∃ v n, (m.Get (m.NewLockContext s).1 key
            (m.Lock (m.NewLockContext s).1 key (m.NewLockContext s).2).2).1 = .ok v ∧
            assertInt64 v 0 = some n ∧
            (m.Set (m.NewLockContext s).1 key (.int64 (wrapInt64 (n + 1)))
              (m.Get (m.NewLockContext s).1 key
                (m.Lock (m.NewLockContext s).1 key (m.NewLockContext s).2).2).2).1
              ≠ none)))) ∧
    (0 < wg →
      (lockAndIncrementWithWaitGroup m key wg s).panics
        = (lockAndIncrement m key s).panicked.toList.map CallPanic.body) ∧
    (wg ≤ 0 →
      (lockAndIncrementWithWaitGroup m key wg s).panics
        = (lockAndIncrement m key s).panicked.toList.map CallPanic.body
          ++ [.negativeWaitGroupCounter]) ∧
    (lockAndIncrementWithWaitGroup m key wg s).calls = (lockAndIncrement m key s).calls ∧
    (lockAndIncrementWithWaitGroup m key wg s).counter = wg - 1 ∧
    (∀ unlock : LockContext → String → σ → Option Err × σ,
      (lockAndIncrementWithWaitGroup { m with Unlock := unlock } key wg s).panics
          = (lockAndIncrementWithWaitGroup m key wg s).panics ∧
        (lockAndIncrementWithWaitGroup { m with Unlock := unlock } key wg s).calls
          = (lockAndIncrementWithWaitGroup m key wg s).calls) := by
  have hbody := body_panics_iff m key s
  refine ⟨?_, ?_, ?_, ?_, ?_, ?_⟩
  · rw [← hbody.1, withWaitGroup_eq]
    by_cases hwg : wg ≤ 0
    · simp [hwg]
    · cases hp : (lockAndIncrement m key s).panicked <;> simp [hwg]
  · intro hpos
    have hwg : ¬ wg ≤ 0 := by omega
    rw [withWaitGroup_eq]
    simp [hwg]
  · intro hwg
    rw [withWaitGroup_eq]
    simp [hwg]
  · rw [withWaitGroup_eq]
  · rw [withWaitGroup_eq]
  · intro u
    rw [withWaitGroup_eq, withWaitGroup_eq, (hbody.2 u).1, (hbody.2 u).2]
    exact ⟨rfl, rfl⟩

/-- C10: the increment is addition modulo `2^64` on two's-complement `int64`: when `Get`
returns the `int64` `n`, the call passes to `Set` an `int64` congruent to `n + 1` modulo
`2^64`, which is `-2^63` when `n` is the largest `int64` and exactly `n + 1` for every other
`n`; the overflow itself does not fail the call, whose body panics only if `Set` returns
an error. -/
theorem lockAndIncrement_increment_wraps {σ : Type} (m : MapAPI σ) (key : String)
    (s s1 s2 s3 : σ) (c : LockContext) (n : Int)
    (hNew : m.NewLockContext s = (c, s1))
    (hLock : m.Lock c key s1 = (none, s2))
    (hGet : m.Get c key s2 = (.ok (.int64 n), s3))
    (hn : inInt64 n) :
    (lockAndIncrement m key s).calls
      = [.NewLockContext c, .Lock c key, .Get c key,
          .Set c key (.int64 (if n = maxInt64 then minInt64 else n + 1)),
          .Unlock c key, .Done] ∧
    (lockAndIncrement m key s).panicked
      = (m.Set c key (.int64 (if n = maxInt64 then minInt64 else n + 1)) s3).1.map
          PanicValue.error ∧
    inInt64 (if n = maxInt64 then minInt64 else n + 1) ∧
    ((if n = maxInt64 then minInt64 else n + 1) - (n + 1)) % 2 ^ 64 = 0 := by
  have hw : wrapInt64 (n + 1) = if n = maxInt64 then minInt64 else n + 1 := by
    unfold inInt64 minInt64 maxInt64 at hn
    unfold wrapInt64 minInt64 maxInt64
    split <;> omega
  rcases hSet : m.Set c key (.int64 (wrapInt64 (n + 1))) s3 with ⟨r, s4⟩
  rw [run_set_returned m key hNew hLock hGet rfl hSet]
  rw [← hw, hSet]
  exact ⟨rfl, rfl, inInt64_wrapInt64 _, wrapInt64_modEq _⟩

/-- C10, at a map that holds the largest `int64` under "counter": the call returns normally
and its `Set` carries the smallest `int64`. -/
theorem lockAndIncrement_increment_wraps_witness :
    inInt64 9223372036854775807 ∧
    (lockAndIncrement (scripted ⟨7, 7⟩ none (.ok (.int64 9223372036854775807)) none none)
        "counter" 0).panicked = none ∧
    (lockAndIncrement (scripted ⟨7, 7⟩ none (.ok (.int64 9223372036854775807)) none none)
        "counter" 0).calls
      = [.NewLockContext ⟨7, 7⟩, .Lock ⟨7, 7⟩ "counter", .Get ⟨7, 7⟩ "counter",
          .Set ⟨7, 7⟩ "counter" (.int64 (-9223372036854775808)), .Unlock ⟨7, 7⟩ "counter",
          .Done] :=
  have h := lockAndIncrement_increment_wraps
    (scripted ⟨7, 7⟩ none (.ok (.int64 9223372036854775807)) none none) "counter" 0 1 2 3
    ⟨7, 7⟩ 9223372036854775807 rfl rfl rfl (by decide)
  ⟨by decide, h.2.1, h.1⟩

/-! ## Lists of goroutines -/

theorem sum_map_set {α : Type} (f : α → Nat) (l : List α) (i : Nat) (a b : α)
    (h : l[i]? = some a) : ((l.set i b).map f).sum + f a = (l.map f).sum + f b := by
  induction l generalizing i with
  | nil => simp at h
  | cons x xs ih =>
    cases i with
    | zero =>
      simp at h
      subst h
      simp only [List.set_cons_zero, List.map_cons, List.sum_cons]
      omega
    | succ i =>
      simp at h
      have := ih i h
      simp only [List.set_cons_succ, List.map_cons, List.sum_cons]
      omega

theorem lt_length_of_getElem? {α : Type} {l : List α} {i : Nat} {a : α} (h : l[i]? = some a) :
    i < l.length := by
  rcases List.getElem?_eq_some.mp h with ⟨hlt, _⟩
  exact hlt

theorem getElem?_set_cases {α : Type} {l : List α} {i j : Nat} {b c : α}
    (h : (l.set i b)[j]? = some c) : (j = i ∧ c = b) ∨ (j ≠ i ∧ l[j]? = some c) := by
  rw [List.getElem?_set] at h
  by_cases hij : i = j
  · subst hij
    left
    by_cases hlt : i < l.length
    · simp [hlt] at h
      exact ⟨rfl, h.symm⟩
    · simp [hlt] at h
  · right
    simp [hij] at h
    exact ⟨fun e => hij e.symm, h⟩

theorem getElem?_set_here {α : Type} {l : List α} {i : Nat} {a b : α} (h : l[i]? = some a) :
    (l.set i b)[i]? = some b := by
  rw [List.getElem?_set]
  simp [lt_length_of_getElem? h]

theorem getElem?_set_other {α : Type} {l : List α} {i j : Nat} {b : α} (h : j ≠ i) :
    (l.set i b)[j]? = l[j]? := by
  rw [List.getElem?_set]
  have : ¬ i = j := fun e => h e.symm
  simp [this]


/-! ## Mutual exclusion is kept by every call -/

section Exclusion
variable {key : String} {s : System} {i : Nat}

theorem Excl.mutex (h : Excl key s) {i j : Nat} {gi gj : Goroutine}
    (hi : s.goroutines[i]? = some gi) (hj : s.goroutines[j]? = some gj)
    (ci : gi.inCriticalSection = true) (cj : gj.inCriticalSection = true) : i = j := by
  obtain ⟨c1, h1, e1⟩ := h.held i gi hi ci
  obtain ⟨c2, h2, e2⟩ := h.held j gj hj cj
  rw [e1] at e2
  have hc : c1 = c2 := by simpa using e2
  exact h.distinct i j gi gj c1 c2 hi hj h1 h2 (by rw [hc])

/-- The two fields of the exclusion invariant that only depend on the contexts. -/
theorem Excl.update_excl (h : Excl key s) {g g' : Goroutine} (hi : s.goroutines[i]? = some g)
    (c' : Coordinator) (w' : Int) (hnext : s.coord.nextID ≤ c'.nextID)
    (hctx : ∀ c, g'.lockCtx = some c →
      g.lockCtx = some c ∨ (c.group = s.coord.nextID ∧ s.coord.nextID < c'.nextID))
    (hheld : ∀ (j : Nat) (gj : Goroutine), (s.goroutines.set i g')[j]? = some gj →
      gj.inCriticalSection = true →
      ∃ c, gj.lockCtx = some c ∧ c'.entries key = some ⟨some c, 1⟩)
    (hfree : (∀ (j : Nat) (gj : Goroutine), (s.goroutines.set i g')[j]? = some gj →
      gj.inCriticalSection = false) → c'.unlocked key) :
    Excl key ⟨c', s.goroutines.set i g', w'⟩ := by
  refine ⟨?_, ?_, hheld, hfree⟩
  · intro j gj c hj hc
    rcases getElem?_set_cases hj with ⟨rfl, rfl⟩ | ⟨_, hj'⟩
    · rcases hctx c hc with hc' | ⟨_, _⟩
      · have := h.fresh j g c hi hc'
        simp only
        omega
      · simp only
        omega
    · have := h.fresh j gj c hj' hc
      simp only
      omega
  · intro a b ga gb ca cb ha hb hca hcb hg
    rcases getElem?_set_cases ha with ⟨rfl, rfl⟩ | ⟨hane, ha'⟩ <;>
      rcases getElem?_set_cases hb with ⟨rfl, rfl⟩ | ⟨hbne, hb'⟩
    · rfl
    · rcases hctx ca hca with hc' | ⟨hc', _⟩
      · exact h.distinct a b g gb ca cb hi hb' hc' hcb hg
      · have := h.fresh b gb cb hb' hcb
        omega
    · rcases hctx cb hcb with hc' | ⟨hc', _⟩
      · exact h.distinct a b ga g ca cb ha' hi hca hc' hg
      · have := h.fresh a ga ca ha' hca
        omega
    · exact h.distinct a b ga gb ca cb ha' hb' hca hcb hg

/-- A call that leaves the ownership table alone, and after which the goroutine is in its
critical section only if it was, with the same context, keeps the exclusion invariant. -/
theorem Excl.keep_excl (h : Excl key s) {g g' : Goroutine} (hi : s.goroutines[i]? = some g)
    (c' : Coordinator) (w' : Int) (hnext : c'.nextID = s.coord.nextID)
    (hent : c'.entries = s.coord.entries)
    (hctx : ∀ c, g'.lockCtx = some c → g.lockCtx = some c)
    (hcs : g'.inCriticalSection = g.inCriticalSection) :
    Excl key ⟨c', s.goroutines.set i g', w'⟩ := by
  apply h.update_excl hi
  · omega
  · intro c hc
    exact Or.inl (hctx c hc)
  · intro j gj hj hin
    rcases getElem?_set_cases hj with ⟨rfl, rfl⟩ | ⟨_, hj'⟩
    · obtain ⟨c2, hc2⟩ : ∃ c2, gj.lockCtx = some c2 := by
        cases gj <;> simp_all [Goroutine.inCriticalSection, Goroutine.lockCtx]
      rw [hcs] at hin
      obtain ⟨c, hc, he⟩ := h.held j g hi hin
      have hcc := hctx c2 hc2
      rw [hc] at hcc
      have hcc' : c = c2 := by simpa using hcc
      subst hcc'
      exact ⟨c, hc2, by rw [hent]; exact he⟩
    · obtain ⟨c, hc, he⟩ := h.held j gj hj' hin
      exact ⟨c, hc, by rw [hent]; exact he⟩
  · intro hall
    have : s.coord.unlocked key := by
      apply h.free
      intro j gj hj
      by_cases hji : j = i
      · subst hji
        rw [hi] at hj
        cases hj
        rw [← hcs]
        exact hall j g' (getElem?_set_here hi)
      · exact hall j gj (by rw [getElem?_set_other hji]; exact hj)
    simpa [Coordinator.unlocked, hent] using this

/-- A `Lock` either blocks, fails and changes nothing, or finds the key free of any other
holder. -/
theorem Excl.lock_cases (h : Excl key s) {c : LockContext}
    (hi : s.goroutines[i]? = some (.locking c)) :
    s.coord.lock c key = .blocked ∨
    (s.coord.connected = false ∧ ∃ e, s.coord.lock c key = .done (.error e) s.coord) ∨
    (s.coord.lock c key = .done (.ok ()) (s.coord.setEntry key ⟨some c, 1⟩) ∧
      ∀ (j : Nat) (gj : Goroutine), s.goroutines[j]? = some gj →
        gj.inCriticalSection = false) := by
  by_cases hconn : s.coord.connected = true
  · by_cases hb : s.coord.lock c key = .blocked
    · exact Or.inl hb
    · right; right
      have hnone : ∀ (j : Nat) (gj : Goroutine), s.goroutines[j]? = some gj →
          gj.inCriticalSection = false := by
        intro j gj hj
        by_contra hcs
        have hcs' : gj.inCriticalSection = true := by simpa using hcs
        obtain ⟨cj, hcj, hent⟩ := h.held j gj hj hcs'
        by_cases hsame : isSameHolder cj c = true
        · have hg : cj.group = c.group := by simpa [isSameHolder] using hsame
          have hji := h.distinct j i gj (.locking c) cj c hj hi hcj rfl hg
          subst hji
          rw [hi] at hj
          cases hj
          simp [Goroutine.inCriticalSection] at hcs'
        · apply hb
          simp [Coordinator.lock, hconn, hent, hsame]
      refine ⟨?_, hnone⟩
      rcases h.free hnone with hent | hent
      · simp [Coordinator.lock, hconn, hent]
      · simp [Coordinator.lock, hconn, hent]
  · right; left
    exact ⟨by simpa using hconn, .CoordinationError, by simp [Coordinator.lock, hconn]⟩

theorem Coordinator.get_cases (c : Coordinator) (ctx : Option LockContext) (key : String) :
    c.get ctx key = .blocked ∨ ∃ r, c.get ctx key = .done r c := by
  unfold Coordinator.get
  split
  · exact Or.inr ⟨_, rfl⟩
  · split
    · exact Or.inl rfl
    · exact Or.inr ⟨_, rfl⟩

theorem Coordinator.set_cases (c : Coordinator) (ctx : Option LockContext) (key : String)
    (v : Value) :
    c.set ctx key v = .blocked ∨ ∃ r c', c.set ctx key v = .done r c' ∧
      c'.nextID = c.nextID ∧ c'.entries = c.entries := by
  unfold Coordinator.set
  split
  · exact Or.inr ⟨_, _, rfl, rfl, rfl⟩
  · split
    · exact Or.inl rfl
    · exact Or.inr ⟨_, _, rfl, rfl, rfl⟩

/-- The deferred `Unlock` of the holder releases the key. -/
theorem Excl.unlock_releases (h : Excl key s) {c : LockContext} {p : Option PanicValue}
    (hi : s.goroutines[i]? = some (.unlocking c p)) :
    s.coord.unlock c key = .done (.ok ()) (s.coord.setEntry key ⟨none, 0⟩) := by
  obtain ⟨c', hc', hent⟩ := h.held i _ hi rfl
  cases hc'
  simp [Coordinator.unlock, hent, isSameHolder]

/-- One call of one goroutine keeps the exclusion invariant, whatever the call returns. -/
theorem Excl.step_excl (h : Excl key s) {s' : System} (hs : s.step key i = some s') :
    Excl key s' := by
  unfold System.step at hs
  cases hg : s.goroutines[i]? with
  | none => simp [hg] at hs
  | some g =>
    simp only [hg] at hs
    cases g with
    | start =>
      simp only [Goroutine.step] at hs
      cases hs
      apply h.update_excl hg
      · simp [Coordinator.newContext]
      · intro c hc
        right
        simp [Goroutine.lockCtx, Coordinator.newContext] at hc
        subst hc
        simp [Coordinator.newContext]
      · intro j gj hj hcs
        rcases getElem?_set_cases hj with ⟨rfl, rfl⟩ | ⟨_, hj'⟩
        · simp [Goroutine.inCriticalSection] at hcs
        · exact h.held j gj hj' hcs
      · intro hall
        apply h.free
        intro j gj hj
        by_cases hji : j = i
        · subst hji
          rw [hg] at hj
          cases hj
          rfl
        · exact hall j gj (by rw [getElem?_set_other hji]; exact hj)
    | locking c =>
      rcases h.lock_cases hg with hb | ⟨_, e, he⟩ | ⟨hl, hnone⟩
      · simp [Goroutine.step, hb] at hs
      · simp only [Goroutine.step, he] at hs
        cases hs
        exact h.keep_excl hg _ _ rfl rfl (by intro c hc; cases hc) rfl
      · simp only [Goroutine.step, hl] at hs
        cases hs
        apply h.update_excl hg
        · simp [Coordinator.setEntry]
        · intro c' hc
          exact Or.inl hc
        · intro j gj hj hcs
          rcases getElem?_set_cases hj with ⟨rfl, rfl⟩ | ⟨_, hj'⟩
          · exact ⟨c, rfl, by simp [Coordinator.setEntry]⟩
          · rw [hnone j gj hj'] at hcs
            cases hcs
        · intro hall
          have := hall i (.getting c) (getElem?_set_here hg)
          simp [Goroutine.inCriticalSection] at this
    | getting c =>
      rcases s.coord.get_cases (some c) key with hb | ⟨r, hr⟩
      · simp [Goroutine.step, hb] at hs
      · simp only [Goroutine.step, hr] at hs
        cases r with
        | error e =>
          simp only at hs
          cases hs
          exact h.keep_excl hg _ _ rfl rfl (fun _ hc => hc) rfl
        | ok v =>
          simp only at hs
          cases hv : assertInt64 v 0 with
          | none =>
            simp only [hv] at hs
            cases hs
            exact h.keep_excl hg _ _ rfl rfl (fun _ hc => hc) rfl
          | some n =>
            simp only [hv] at hs
            cases hs
            exact h.keep_excl hg _ _ rfl rfl (fun _ hc => hc) rfl
    | setting c x =>
      rcases s.coord.set_cases (some c) key (.int64 x) with hb | ⟨r, c', hr, hn, he⟩
      · simp [Goroutine.step, hb] at hs
      · simp only [Goroutine.step, hr] at hs
        cases r with
        | error e =>
          simp only at hs
          cases hs
          exact h.keep_excl hg _ _ hn he (fun _ hc => hc) rfl
        | ok u =>
          simp only at hs
          cases hs
          exact h.keep_excl hg _ _ hn he (fun _ hc => hc) rfl
    | unlocking c p =>
      simp only [Goroutine.step, h.unlock_releases hg] at hs
      cases hs
      apply h.update_excl hg
      · simp [Coordinator.setEntry]
      · intro c' hc
        simp [Goroutine.lockCtx] at hc
      · intro j gj hj hcs
        rcases getElem?_set_cases hj with ⟨rfl, rfl⟩ | ⟨hne, hj'⟩
        · simp [Goroutine.inCriticalSection] at hcs
        · exact absurd (h.mutex hj' hg hcs rfl) hne
      · intro _
        right
        simp [Coordinator.setEntry]
    | signalling p =>
      simp only [Goroutine.step] at hs
      cases hs
      exact h.keep_excl hg _ _ rfl rfl (by intro c hc; cases hc) rfl
    | exited p => simp [Goroutine.step] at hs

/-- While a goroutine is in its critical section, a call of a goroutine outside of it leaves
the ownership table and the stored values as they are. -/
theorem Excl.step_outside (h : Excl key s) {j k : Nat} {gj gk : Goroutine} {s' : System}
    (hj : s.goroutines[j]? = some gj) (hk : s.goroutines[k]? = some gk)
    (hcs : gk.inCriticalSection = true) (hout : gj.inCriticalSection = false)
    (hs : s.step key j = some s') :
    s'.coord.entries = s.coord.entries ∧ s'.coord.values = s.coord.values := by
  unfold System.step at hs
  simp only [hj] at hs
  cases gj with
  | start =>
    simp only [Goroutine.step] at hs
    cases hs
    exact ⟨rfl, rfl⟩
  | locking c =>
    rcases h.lock_cases hj with hb | ⟨_, e, he⟩ | ⟨_, hnone⟩
    · simp [Goroutine.step, hb] at hs
    · simp only [Goroutine.step, he] at hs
      cases hs
      exact ⟨rfl, rfl⟩
    · rw [hnone k gk hk] at hcs
      cases hcs
  | getting c => cases hout
  | setting c x => cases hout
  | unlocking c p => cases hout
  | signalling p =>
    simp only [Goroutine.step] at hs
    cases hs
    exact ⟨rfl, rfl⟩
  | exited p => simp [Goroutine.step] at hs

theorem Excl.run_excl (h : Excl key s) {sched : List Nat} {s' : System}
    (hs : System.run key sched s = some s') : Excl key s' := by
  induction sched generalizing s with
  | nil =>
    simp only [System.run] at hs
    cases hs
    exact h
  | cons i rest ih =>
    simp only [System.run] at hs
    cases h1 : s.step key i with
    | none => simp [h1] at hs
    | some s1 =>
      simp only [h1] at hs
      exact ih (h.step_excl h1) hs

theorem Excl.init_excl {c : Coordinator} {n : Nat} (hfree : c.unlocked key) :
    Excl key (System.init c n) := by
  have hstart : ∀ (i : Nat) (g : Goroutine), (System.init c n).goroutines[i]? = some g →
      g = .start := by
    intro i g hg
    simp only [System.init, List.getElem?_replicate] at hg
    split at hg
    · cases hg
      rfl
    · cases hg
  refine ⟨?_, ?_, ?_, ?_⟩
  · intro i g c' hg hc
    rw [hstart i g hg] at hc
    cases hc
  · intro i j gi gj ci cj hi _ hci
    rw [hstart i gi hi] at hci
    cases hci
  · intro i g hg hcs
    rw [hstart i g hg] at hcs
    cases hcs
  · intro _
    exact hfree

end Exclusion

/-! ## The counting invariant is kept by every call -/

section Counting
variable {key : String} {n0 : Int} {s : System} {i : Nat}

/-- The fields of the counting invariant that only depend on the goroutine that moved. -/
theorem Inv.update_count (h : Inv key n0 s) {g g' : Goroutine} (hi : s.goroutines[i]? = some g)
    (c' : Coordinator) (w' : Int)
    (hexcl : Excl key ⟨c', s.goroutines.set i g', w'⟩)
    (hconn : c'.connected = true)
    (hpanic : g'.panicked = none)
    (hwg : w' + (g'.exitedCount : Int) = s.wg + (g.exitedCount : Int))
    (hvalue : assertInt64 (c'.values key) 0
      = some (wrapInt64 (n0 + (s.increments + g'.hasSet - g.hasSet : Nat))))
    (hstored : 0 < s.increments + g'.hasSet - g.hasSet →
      c'.values key = .int64 (wrapInt64 (n0 + (s.increments + g'.hasSet - g.hasSet : Nat))))
    (hpending : ∀ (j : Nat) (c : LockContext) (x : Int),
      (s.goroutines.set i g')[j]? = some (.setting c x) →
      x = wrapInt64 (n0 + (s.increments + g'.hasSet - g.hasSet : Nat) + 1)) :
    Inv key n0 ⟨c', s.goroutines.set i g', w'⟩ := by
  have hinc : System.increments ⟨c', s.goroutines.set i g', w'⟩
      = s.increments + g'.hasSet - g.hasSet := by
    have := sum_map_set Goroutine.hasSet s.goroutines i g g' hi
    simp only [System.increments]
    omega
  have hex := sum_map_set Goroutine.exitedCount s.goroutines i g g' hi
  refine ⟨hexcl, hconn, ?_, ?_, ?_, ?_, ?_⟩
  · rw [hinc]; exact hvalue
  · rw [hinc]; exact hstored
  · rw [hinc]; exact hpending
  · intro j gj hj
    rcases getElem?_set_cases hj with ⟨rfl, rfl⟩ | ⟨_, hj'⟩
    · exact hpanic
    · exact h.noPanic j gj hj'
  · have := h.waitGroup
    simp only [List.length_set]
    omega

/-- A call that leaves the stored value alone and is not a completed `Set`. -/
theorem Inv.keep_count (h : Inv key n0 s) {g g' : Goroutine} (hi : s.goroutines[i]? = some g)
    (c' : Coordinator) (w' : Int)
    (hexcl : Excl key ⟨c', s.goroutines.set i g', w'⟩)
    (hconn : c'.connected = true) (hval : c'.values = s.coord.values)
    (hpanic : g'.panicked = none)
    (hwg : w' + (g'.exitedCount : Int) = s.wg + (g.exitedCount : Int))
    (hset : g'.hasSet = g.hasSet)
    (hpend : ∀ c x, g' = .setting c x → x = wrapInt64 (n0 + s.increments + 1)) :
    Inv key n0 ⟨c', s.goroutines.set i g', w'⟩ := by
  have hsub : s.increments + g'.hasSet - g.hasSet = s.increments := by omega
  apply h.update_count hi c' w' hexcl hconn hpanic hwg
  · rw [hsub, hval]; exact h.value
  · rw [hsub, hval]; exact h.stored
  · intro j c x hj
    rw [hsub]
    rcases getElem?_set_cases hj with ⟨rfl, hx⟩ | ⟨_, hj'⟩
    · exact hpend c x hx.symm
    · exact h.pending j c x hj'

/-- A `Lock` that does not block finds the key free and takes it. -/
theorem Inv.lock_taken (h : Inv key n0 s) {c : LockContext}
    (hi : s.goroutines[i]? = some (.locking c)) (hr : s.coord.lock c key ≠ .blocked) :
    s.coord.lock c key = .done (.ok ()) (s.coord.setEntry key ⟨some c, 1⟩) := by
  rcases h.excl.lock_cases hi with hb | ⟨hc, _⟩ | ⟨hl, _⟩
  · exact absurd hb hr
  · rw [h.connected] at hc
    cases hc
  · exact hl

/-- The holder's operations never block. -/
theorem Excl.not_lockedAgainst (h : Excl key s) {g : Goroutine} {c : LockContext}
    (hi : s.goroutines[i]? = some g) (hcs : g.inCriticalSection = true)
    (hc : g.lockCtx = some c) : s.coord.lockedAgainst key (some c) = false := by
  obtain ⟨c', hc', hent⟩ := h.held i g hi hcs
  rw [hc] at hc'
  cases hc'
  simp [Coordinator.lockedAgainst, Coordinator.holder, hent, isSameHolder]

theorem Inv.get_returns (h : Inv key n0 s) {c : LockContext}
    (hi : s.goroutines[i]? = some (.getting c)) :
    s.coord.get (some c) key = .done (.ok (s.coord.values key)) s.coord := by
  simp [Coordinator.get, h.connected, h.excl.not_lockedAgainst hi rfl rfl]

theorem Inv.set_returns (h : Inv key n0 s) {c : LockContext} {x : Int}
    (hi : s.goroutines[i]? = some (.setting c x)) :
    s.coord.set (some c) key (.int64 x) = .done (.ok ())
      { s.coord with values := fun k => if k = key then .int64 x else s.coord.values k } := by
  simp [Coordinator.set, h.connected, h.excl.not_lockedAgainst hi rfl rfl]

theorem progress_set {gs : List Goroutine} {i : Nat} {g g' : Goroutine} {c c' : Coordinator}
    {w w' : Int} (hi : gs[i]? = some g) (hr : g'.rank = g.rank + 1) :
    System.progress ⟨c', gs.set i g', w'⟩ = System.progress ⟨c, gs, w⟩ + 1 := by
  have := sum_map_set Goroutine.rank gs i g g' hi
  simp only [System.progress]
  omega

/-- One call of one goroutine keeps the invariant and moves that goroutine one program point
forward. -/
theorem Inv.step_count (h : Inv key n0 s) {s' : System} (hs : s.step key i = some s') :
    Inv key n0 s' ∧ s'.progress = s.progress + 1 ∧
      s'.goroutines.length = s.goroutines.length := by
  have hexcl := h.excl.step_excl hs
  unfold System.step at hs
  cases hg : s.goroutines[i]? with
  | none => simp [hg] at hs
  | some g =>
    simp only [hg] at hs
    cases g with
    | start =>
      simp only [Goroutine.step] at hs
      cases hs
      refine ⟨?_, progress_set hg rfl, List.length_set _ _ _⟩
      exact h.keep_count hg _ _ hexcl h.connected rfl rfl rfl rfl (by intro c x hc; cases hc)
    | locking c =>
      have hnb : s.coord.lock c key ≠ .blocked := by
        intro hb
        simp [Goroutine.step, hb] at hs
      simp only [Goroutine.step, h.lock_taken hg hnb] at hs
      cases hs
      refine ⟨?_, progress_set hg rfl, List.length_set _ _ _⟩
      exact h.keep_count hg _ _ hexcl h.connected rfl rfl rfl rfl (by intro c x hc; cases hc)
    | getting c =>
      simp only [Goroutine.step, h.get_returns hg, h.value] at hs
      cases hs
      refine ⟨?_, progress_set hg rfl, List.length_set _ _ _⟩
      apply h.keep_count hg _ _ hexcl h.connected rfl rfl rfl rfl
      intro c' x hc
      cases hc
      exact wrapInt64_wrapInt64_add _ _
    | setting c x =>
      simp only [Goroutine.step, h.set_returns hg] at hs
      cases hs
      refine ⟨?_, progress_set hg rfl, List.length_set _ _ _⟩
      have hx := h.pending i c x hg
      apply h.update_count hg _ _ hexcl h.connected rfl rfl
      · simp [Goroutine.hasSet, assertInt64, hx, add_assoc]
      · intro _
        simp [Goroutine.hasSet, hx, add_assoc]
      · intro j c' x' hj
        rcases getElem?_set_cases hj with ⟨rfl, hx'⟩ | ⟨hne, hj'⟩
        · cases hx'
        · exact absurd (h.excl.mutex hj' hg rfl rfl) hne
    | unlocking c p =>
      simp only [Goroutine.step, h.excl.unlock_releases hg] at hs
      cases hs
      refine ⟨?_, progress_set hg rfl, List.length_set _ _ _⟩
      have hp : p = none := h.noPanic i _ hg
      subst hp
      exact h.keep_count hg _ _ hexcl h.connected rfl rfl rfl rfl (by intro c x hc; cases hc)
    | signalling p =>
      simp only [Goroutine.step] at hs
      cases hs
      refine ⟨?_, progress_set hg rfl, List.length_set _ _ _⟩
      have hp : p = none := h.noPanic i _ hg
      subst hp
      exact h.keep_count hg _ _ hexcl h.connected rfl rfl (by simp [Goroutine.exitedCount]) rfl
        (by intro c x hc; cases hc)
    | exited p => simp [Goroutine.step] at hs

/-- A schedule that can be run keeps the invariant; every call it makes moves one goroutine
one program point forward. -/
theorem Inv.run_count (h : Inv key n0 s) {sched : List Nat} {s' : System}
    (hs : System.run key sched s = some s') :
    Inv key n0 s' ∧ s'.progress = s.progress + sched.length ∧
      s'.goroutines.length = s.goroutines.length := by
  induction sched generalizing s with
  | nil =>
    simp only [System.run] at hs
    cases hs
    exact ⟨h, rfl, rfl⟩
  | cons i rest ih =>
    simp only [System.run] at hs
    cases h1 : s.step key i with
    | none => simp [h1] at hs
    | some s1 =>
      simp only [h1] at hs
      obtain ⟨hinv, hp, hl⟩ := h.step_count h1
      obtain ⟨hinv', hp', hl'⟩ := ih hinv hs
      refine ⟨hinv', ?_, ?_⟩
      · rw [hp', hp, List.length_cons]
        omega
      · rw [hl', hl]

theorem Inv.init_count {c : Coordinator} {n : Nat} (hconn : c.connected = true)
    (hfree : c.unlocked key) (hval : assertInt64 (c.values key) 0 = some n0)
    (hn0 : inInt64 n0) : Inv key n0 (System.init c n) := by
  have hstart : ∀ (i : Nat) (g : Goroutine), (System.init c n).goroutines[i]? = some g →
      g = .start := by
    intro i g hg
    simp only [System.init, List.getElem?_replicate] at hg
    split at hg
    · cases hg
      rfl
    · cases hg
  have hinc : (System.init c n).increments = 0 := by
    simp [System.increments, System.init, Goroutine.hasSet]
  refine ⟨Excl.init_excl hfree, hconn, ?_, ?_, ?_, ?_, ?_⟩
  · rw [hinc]
    simpa [wrapInt64_of_inInt64 hn0] using hval
  · rw [hinc]
    intro hlt
    cases hlt
  · intro i c' x hg
    have := hstart i _ hg
    cases this
  · intro i g hg
    rw [hstart i g hg]
    rfl
  · simp [System.init, Goroutine.exitedCount]

end Counting

section Liveness
variable {key : String} {n0 : Int} {s : System}

theorem sum_map_le {α : Type} (f : α → Nat) (b : Nat) (l : List α) (h : ∀ a ∈ l, f a ≤ b) :
    (l.map f).sum ≤ b * l.length := by
  induction l with
  | nil => simp
  | cons x xs ih =>
    have h1 := h x (List.mem_cons_self _ _)
    have h2 := ih (fun a ha => h a (List.mem_cons_of_mem _ ha))
    simp only [List.map_cons, List.sum_cons, List.length_cons]
    rw [Nat.mul_succ]
    omega

theorem sum_map_const {α : Type} (f : α → Nat) (b : Nat) (l : List α)
    (h : ∀ a ∈ l, f a = b) : (l.map f).sum = b * l.length := by
  induction l with
  | nil => simp
  | cons x xs ih =>
    have h1 := h x (List.mem_cons_self _ _)
    have h2 := ih (fun a ha => h a (List.mem_cons_of_mem _ ha))
    simp only [List.map_cons, List.sum_cons, List.length_cons]
    rw [Nat.mul_succ]
    omega

theorem Goroutine.rank_le (g : Goroutine) : g.rank ≤ 6 := by
  cases g <;> simp [Goroutine.rank]

theorem System.progress_le (s : System) : s.progress ≤ 6 * s.goroutines.length :=
  sum_map_le Goroutine.rank 6 s.goroutines (fun g _ => g.rank_le)

/-- No deadlock: while a goroutine has not exited, some goroutine can make its next call. -/
theorem Inv.can_step (h : Inv key n0 s) (hne : s.allExited = false) :
    ∃ i s', s.step key i = some s' := by
  by_cases hcs : ∃ (j : Nat) (gj : Goroutine), s.goroutines[j]? = some gj ∧
      gj.inCriticalSection = true
  · obtain ⟨j, gj, hj, hin⟩ := hcs
    refine ⟨j, ?_⟩
    cases gj with
    | getting c =>
      simp [System.step, hj, Goroutine.step, h.get_returns hj, h.value]
    | setting c x =>
      simp [System.step, hj, Goroutine.step, h.set_returns hj]
    | unlocking c p =>
      simp [System.step, hj, Goroutine.step, h.excl.unlock_releases hj]
    | start => cases hin
    | locking c => cases hin
    | signalling p => cases hin
    | exited p => cases hin
  · have hnone : ∀ (j : Nat) (gj : Goroutine), s.goroutines[j]? = some gj →
        gj.inCriticalSection = false := by
      intro j gj hj
      by_contra hx
      exact hcs ⟨j, gj, hj, by simpa using hx⟩
    have hex : ∃ g ∈ s.goroutines, g.isExited = false := by
      by_contra hall
      have : s.allExited = true := by
        simp only [System.allExited, List.all_eq_true]
        intro g hg
        by_contra hx
        exact hall ⟨g, hg, by simpa using hx⟩
      rw [this] at hne
      cases hne
    obtain ⟨g, hg, hgx⟩ := hex
    obtain ⟨j, hj⟩ := List.mem_iff_getElem?.mp hg
    refine ⟨j, ?_⟩
    cases g with
    | start => simp [System.step, hj, Goroutine.step]
    | locking c =>
      have hl : s.coord.lock c key = .done (.ok ()) (s.coord.setEntry key ⟨some c, 1⟩) := by
        rcases h.excl.free hnone with hent | hent
        · simp [Coordinator.lock, h.connected, hent]
        · simp [Coordinator.lock, h.connected, hent]
      simp [System.step, hj, Goroutine.step, hl]
    | signalling p => simp [System.step, hj, Goroutine.step]
    | getting c => exact absurd (hnone j _ hj) (by simp [Goroutine.inCriticalSection])
    | setting c x => exact absurd (hnone j _ hj) (by simp [Goroutine.inCriticalSection])
    | unlocking c p => exact absurd (hnone j _ hj) (by simp [Goroutine.inCriticalSection])
    | exited p => cases hgx

/-- Termination: from every state of the invariant the goroutines can all be run to their
exit. -/
theorem Inv.can_finish (h : Inv key n0 s) :
    ∃ rest s', System.run key rest s = some s' ∧ s'.allExited = true := by
  generalize hm : 6 * s.goroutines.length - s.progress = m
  induction m generalizing s with
  | zero =>
    cases hx : s.allExited with
    | true => exact ⟨[], s, rfl, hx⟩
    | false =>
      obtain ⟨i, s1, hs1⟩ := h.can_step hx
      obtain ⟨_, hp, hl⟩ := h.step_count hs1
      have := s1.progress_le
      omega
  | succ m ih =>
    cases hx : s.allExited with
    | true => exact ⟨[], s, rfl, hx⟩
    | false =>
      obtain ⟨i, s1, hs1⟩ := h.can_step hx
      obtain ⟨hinv, hp, hl⟩ := h.step_count hs1
      obtain ⟨rest, s', hr, hall⟩ := ih hinv (by omega)
      exact ⟨i :: rest, s', by simp [System.run, hs1, hr], hall⟩

/-- What the invariant says once every goroutine has exited. -/
theorem Inv.final (h : Inv key n0 s) (hall : s.allExited = true) :
    s.increments = s.goroutines.length ∧ s.wg = 0 ∧ s.coord.unlocked key ∧
      (∀ g ∈ s.goroutines, g = .exited none) := by
  have hgs : ∀ g ∈ s.goroutines, g = .exited none := by
    intro g hg
    obtain ⟨j, hj⟩ := List.mem_iff_getElem?.mp hg
    have hp := h.noPanic j g hj
    have hx : g.isExited = true := by
      simp only [System.allExited, List.all_eq_true] at hall
      exact hall g hg
    cases g <;> simp_all [Goroutine.isExited, Goroutine.panicked]
  have hinc : s.increments = s.goroutines.length := by
    have := sum_map_const Goroutine.hasSet 1 s.goroutines (fun g hg => by rw [hgs g hg]; rfl)
    simpa [System.increments] using this
  have hexc : (s.goroutines.map Goroutine.exitedCount).sum = s.goroutines.length := by
    have := sum_map_const Goroutine.exitedCount 1 s.goroutines
      (fun g hg => by rw [hgs g hg]; rfl)
    simpa using this
  refine ⟨hinc, ?_, ?_, hgs⟩
  · have := h.waitGroup
    omega
  · apply h.excl.free
    intro j gj hj
    rw [hgs gj (List.mem_iff_getElem?.mpr ⟨j, hj⟩)]
    rfl

theorem Coordinator.get_of_unlocked {c : Coordinator} {key : String} (hconn : c.connected = true)
    (hfree : c.unlocked key) : c.get none key = .done (.ok (c.values key)) c := by
  rcases hfree with hent | hent <;>
    simp [Coordinator.get, hconn, Coordinator.lockedAgainst, Coordinator.holder, hent]

end Liveness

/-! ## Mutual exclusion over histories of the coordinator -/

theorem isSameHolder_refl (a : LockContext) : isSameHolder a a = true := by
  simp [isSameHolder]

theorem isSameHolder_symm {a b : LockContext} (h : isSameHolder a b = true) :
    isSameHolder b a = true := by
  simp [isSameHolder] at h ⊢
  exact h.symm

theorem isSameHolder_trans {a b c : LockContext} (h1 : isSameHolder a b = true)
    (h2 : isSameHolder b c = true) : isSameHolder a c = true := by
  simp [isSameHolder] at h1 h2 ⊢
  exact h1.trans h2

theorem isSameHolder_congr {h c : LockContext} (hs : isSameHolder h c = true)
    (a : LockContext) : isSameHolder c a = isSameHolder h a := by
  simp [isSameHolder] at hs ⊢
  rw [hs]

theorem isSameHolder_derive (parent : LockContext) (s : Coordinator) :
    isSameHolder parent (s.derive parent).1 = true := by
  simp [isSameHolder, Coordinator.derive]

theorem openIntervals_snoc (history : List FacadeOp) (op : FacadeOp) (a : LockContext)
    (key : String) :
    openIntervals (history ++ [op]) a key = openIntervals history a key + op.holdDelta a key := by
  simp [openIntervals]

theorem Coordinator.setEntry_entries_other {s : Coordinator} {k key : String}
    (e : KeyLockEntry) (h : key ≠ k) : (s.setEntry k e).entries key = s.entries key := by
  simp [Coordinator.setEntry, h]

/-- An operation on another key, or a `get` or `set`, leaves the key's entry alone. -/
theorem Agrees.frame {key : String} {s s' : Coordinator} {history : List FacadeOp}
    {op : FacadeOp} (h : Agrees key s history) (hent : s'.entries key = s.entries key)
    (hd : ∀ a, op.holdDelta a key = 0) : Agrees key s' (history ++ [op]) := by
  rcases h with ⟨hfree, hz⟩ | ⟨hd', n, he, hn, ho⟩
  · left
    refine ⟨?_, ?_⟩
    · simpa [Coordinator.unlocked, hent] using hfree
    · intro a
      rw [openIntervals_snoc, hz a, hd a]
      rfl
  · right
    refine ⟨hd', n, by rw [hent]; exact he, hn, ?_⟩
    intro a
    rw [openIntervals_snoc, ho a, hd a, add_zero]

theorem Coordinator.lock_frame {c c' : Coordinator} {ctx : LockContext} {k : String}
    {r : Except LockError Unit} (h : c.lock ctx k = .done r c') {key : String}
    (hk : key ≠ k) : c'.entries key = c.entries key := by
  unfold Coordinator.lock at h
  cases hconn : c.connected with
  | false =>
    simp [hconn] at h
    rw [← h.2]
  | true =>
    simp only [hconn, Bool.not_true, Bool.false_eq_true, ↓reduceIte] at h
    cases he : c.entries k with
    | none =>
      simp only [he, Outcome.done.injEq] at h
      rw [← h.2]
      exact Coordinator.setEntry_entries_other _ hk
    | some e =>
      simp only [he] at h
      cases hh : e.holder with
      | none =>
        simp only [hh, Outcome.done.injEq] at h
        rw [← h.2]
        exact Coordinator.setEntry_entries_other _ hk
      | some hd =>
        simp only [hh] at h
        by_cases hsame : isSameHolder hd ctx = true
        · simp only [hsame, ↓reduceIte, Outcome.done.injEq] at h
          rw [← h.2]
          exact Coordinator.setEntry_entries_other _ hk
        · simp [hsame] at h

theorem Coordinator.unlock_frame {c c' : Coordinator} {ctx : LockContext} {k : String}
    {r : Except LockError Unit} (h : c.unlock ctx k = .done r c') {key : String}
    (hk : key ≠ k) : c'.entries key = c.entries key := by
  unfold Coordinator.unlock at h
  cases he : c.entries k with
  | none =>
    simp only [he, Outcome.done.injEq] at h
    rw [← h.2]
  | some e =>
    simp only [he] at h
    cases hh : e.holder with
    | none =>
      simp only [hh, Outcome.done.injEq] at h
      rw [← h.2]
    | some hd =>
      simp only [hh] at h
      by_cases hsame : isSameHolder hd ctx = true
      · simp only [hsame, ↓reduceIte, Outcome.done.injEq] at h
        rw [← h.2]
        exact Coordinator.setEntry_entries_other _ hk
      · simp only [hsame, Bool.false_eq_true, ↓reduceIte, Outcome.done.injEq] at h
        rw [← h.2]

theorem Coordinator.perform_lock {s s' : Coordinator} {ctx : LockContext} {k : String}
    (hs : s.perform (.lock ctx k) = some s') : s.lock ctx k = .done (.ok ()) s' := by
  simp only [Coordinator.perform] at hs
  cases hr : s.lock ctx k with
  | blocked => simp [hr] at hs
  | done r c =>
    cases r with
    | error e => simp [hr] at hs
    | ok u =>
      simp only [hr, Option.some.injEq] at hs
      rw [hs]

theorem Coordinator.perform_unlock {s s' : Coordinator} {ctx : LockContext} {k : String}
    (hs : s.perform (.unlock ctx k) = some s') : s.unlock ctx k = .done (.ok ()) s' := by
  simp only [Coordinator.perform] at hs
  cases hr : s.unlock ctx k with
  | blocked => simp [hr] at hs
  | done r c =>
    cases r with
    | error e => simp [hr] at hs
    | ok u =>
      simp only [hr, Option.some.injEq] at hs
      rw [hs]

theorem Coordinator.perform_get {s s' : Coordinator} {ctx : Option LockContext} {k : String}
    (hs : s.perform (.get ctx k) = some s') : s' = s := by
  simp only [Coordinator.perform] at hs
  rcases s.get_cases ctx k with hb | ⟨r, hr⟩
  · simp [hb] at hs
  · cases r with
    | error e => simp [hr] at hs
    | ok v =>
      simp only [hr, Option.some.injEq] at hs
      exact hs.symm

theorem Coordinator.perform_set {s s' : Coordinator} {ctx : Option LockContext} {k : String}
    {v : Value} (hs : s.perform (.set ctx k v) = some s') : s'.entries = s.entries := by
  simp only [Coordinator.perform] at hs
  rcases s.set_cases ctx k v with hb | ⟨r, c', hr, _, he⟩
  · simp [hb] at hs
  · cases r with
    | error e => simp [hr] at hs
    | ok u =>
      simp only [hr, Option.some.injEq] at hs
      rw [← hs, he]

theorem Agrees.perform_agrees {key : String} {s s' : Coordinator} {history : List FacadeOp}
    {op : FacadeOp} (h : Agrees key s history) (hs : s.perform op = some s') :
    Agrees key s' (history ++ [op]) := by
  cases op with
  | get ctx k =>
    have hs' := Coordinator.perform_get hs
    subst hs'
    exact h.frame rfl (fun _ => rfl)
  | set ctx k v =>
    exact h.frame (by rw [Coordinator.perform_set hs]) (fun _ => rfl)
  | lock ctx k =>
    have hl := Coordinator.perform_lock hs
    by_cases hk : k = key
    · subst hk
      simp only [Coordinator.lock] at hl
      by_cases hconn : s.connected = true
      · simp only [hconn, Bool.not_true, Bool.false_eq_true, ↓reduceIte] at hl
        rcases h with ⟨hfree, hz⟩ | ⟨hd, n, he, hn, ho⟩
        · right
          refine ⟨ctx, 1, ?_, Nat.one_pos, ?_⟩
          · rcases hfree with he | he
            · simp only [he, Outcome.done.injEq, true_and] at hl
              rw [← hl]
              simp [Coordinator.setEntry]
            · simp only [he, Outcome.done.injEq, true_and] at hl
              rw [← hl]
              simp [Coordinator.setEntry]
          · intro a
            rw [openIntervals_snoc, hz a]
            simp [FacadeOp.holdDelta]
        · simp only [he] at hl
          by_cases hsame : isSameHolder hd ctx = true
          · simp only [hsame, ↓reduceIte, Outcome.done.injEq, true_and] at hl
            right
            refine ⟨hd, n + 1, by rw [← hl]; simp [Coordinator.setEntry], Nat.succ_pos _, ?_⟩
            intro a
            rw [openIntervals_snoc, ho a]
            simp only [FacadeOp.holdDelta, isSameHolder_congr hsame a, and_true]
            split <;> simp
          · simp [hsame] at hl
      · simp [hconn] at hl
    · exact h.frame (Coordinator.lock_frame hl (fun e => hk e.symm))
        (fun a => by simp [FacadeOp.holdDelta, hk])
  | unlock ctx k =>
    have hl := Coordinator.perform_unlock hs
    by_cases hk : k = key
    · subst hk
      simp only [Coordinator.unlock] at hl
      rcases h with ⟨hfree, hz⟩ | ⟨hd, n, he, hn, ho⟩
      · rcases hfree with he | he
        · simp [he] at hl
        · simp [he] at hl
      · simp only [he] at hl
        by_cases hsame : isSameHolder hd ctx = true
        · simp only [hsame, ↓reduceIte, Outcome.done.injEq, true_and] at hl
          by_cases hn1 : n - 1 = 0
          · left
            refine ⟨Or.inr (by rw [← hl]; simp [Coordinator.setEntry, hn1]), ?_⟩
            intro a
            rw [openIntervals_snoc, ho a]
            simp only [FacadeOp.holdDelta, isSameHolder_congr hsame a, and_true]
            split
            · omega
            · simp
          · right
            refine ⟨hd, n - 1, by rw [← hl]; simp [Coordinator.setEntry, hn1], by omega, ?_⟩
            intro a
            rw [openIntervals_snoc, ho a]
            simp only [FacadeOp.holdDelta, isSameHolder_congr hsame a, and_true]
            split
            · omega
            · simp
        · simp [hsame] at hl
    · exact h.frame (Coordinator.unlock_frame hl (fun e => hk e.symm))
        (fun a => by simp [FacadeOp.holdDelta, hk])

theorem Agrees.performAll_agrees {key : String} {s s' : Coordinator} {past rest : List FacadeOp}
    (h : Agrees key s past) (hs : s.performAll rest = some s') :
    Agrees key s' (past ++ rest) := by
  induction rest generalizing s past with
  | nil =>
    simp only [Coordinator.performAll] at hs
    cases hs
    simpa using h
  | cons op more ih =>
    simp only [Coordinator.performAll] at hs
    cases h1 : s.perform op with
    | none => simp [h1] at hs
    | some s1 =>
      simp only [h1] at hs
      have := ih (h.perform_agrees h1) hs
      simpa using this

/-- Two holders with open intervals on the same key are the same holder. -/
theorem Agrees.exclusive {key : String} {s : Coordinator} {history : List FacadeOp}
    (h : Agrees key s history) {a b : LockContext} (ha : 0 < openIntervals history a key)
    (hb : 0 < openIntervals history b key) : isSameHolder a b = true := by
  rcases h with ⟨_, hz⟩ | ⟨hd, n, _, _, ho⟩
  · rw [hz a] at ha
    cases ha
  · rw [ho a] at ha
    rw [ho b] at hb
    have h1 : isSameHolder hd a = true := by
      by_contra hx
      simp [hx] at ha
    have h2 : isSameHolder hd b = true := by
      by_contra hx
      simp [hx] at hb
    exact isSameHolder_trans (isSameHolder_symm h1) h2

/-! ## Claims about the lock coordinator and about concurrent calls -/

/-- C1, as stated, fails when the sum leaves the `int64` range: one goroutine started on a
map that holds `2^63 - 1` under "counter" runs to its exit and leaves `-2^63`, not
`2^63`. -/
theorem concurrent_increment_overflows :
    inInt64 maxInt64 ∧
    (System.run "counter" [0, 0, 0, 0, 0, 0]
        (System.init (Coordinator.fresh fun _ => .int64 maxInt64) 1)).map
      (fun s => (s.allExited, s.coord.values "counter")) = some (true, .int64 minInt64) ∧
    Value.int64 minInt64 ≠ Value.int64 (maxInt64 + 1) := by
  decide

/-- C1 (amended): `N` goroutines are started on `key` against a connected map service in
which the key is unlocked and holds `n0` (nothing stored counting as 0). Whatever the
schedule, once all have exited the key holds `n0 + N` reduced to 64 bits, which is `n0 + N`
whenever that is an `int64`; every goroutine has returned normally after its six calls, the
wait group is at 0 and the final `Get` of `main`, without lock context, returns the value at
once. From every state a schedule can reach, the goroutines can all be run to their exit. -/
theorem concurrent_increment_total (key : String) (N : Nat) (c : Coordinator) (n0 : Int)
    (hconn : c.connected = true) (hfree : c.unlocked key)
    (hval : (c.values key = .nil ∧ n0 = 0) ∨ c.values key = .int64 n0)
    (hn0 : inInt64 n0) :
    (∀ (sched : List Nat) (s : System),
      System.run key sched (System.init c N) = some s → s.allExited = true →
        assertInt64 (s.coord.values key) 0 = some (wrapInt64 (n0 + N)) ∧
        (0 < N → s.coord.values key = .int64 (wrapInt64 (n0 + N))) ∧
        s.coord.get none key = .done (.ok (s.coord.values key)) s.coord ∧
        s.wg = 0 ∧ (∀ g ∈ s.goroutines, g = .exited none) ∧
        s.goroutines.length = N ∧ sched.length = 6 * N) ∧
    (∀ (sched : List Nat) (s : System),
      System.run key sched (System.init c N) = some s →
        ∃ rest s', System.run key rest s = some s' ∧ s'.allExited = true) ∧
    (n0 + N ≤ maxInt64 → wrapInt64 (n0 + N) = n0 + N) := by
  have hassert : assertInt64 (c.values key) 0 = some n0 := by
    rcases hval with ⟨h, rfl⟩ | h <;> rw [h] <;> rfl
  have hinit : Inv key n0 (System.init c N) := Inv.init_count hconn hfree hassert hn0
  refine ⟨?_, ?_, ?_⟩
  · intro sched s hrun hall
    obtain ⟨hinv, hprog, hlen⟩ := hinit.run_count hrun
    obtain ⟨hinc, hwg, hunl, hgs⟩ := hinv.final hall
    have hN : s.goroutines.length = N := by
      rw [hlen]
      simp [System.init]
    have hv := hinv.value
    have hs := hinv.stored
    rw [hinc, hN] at hv hs
    refine ⟨hv, hs, Coordinator.get_of_unlocked hinv.connected hunl, hwg, hgs, hN, ?_⟩
    have h0 : (System.init c N).progress = 0 := by
      simp [System.progress, System.init, Goroutine.rank]
    have h6 : s.progress = 6 * s.goroutines.length :=
      sum_map_const _ 6 _ (fun g hg => by rw [hgs g hg]; rfl)
    omega
  · intro sched s hrun
    exact (hinit.run_count hrun).1.can_finish
  · intro hle
    apply wrapInt64_of_inInt64
    unfold inInt64 minInt64 maxInt64 at *
    omega

/-- C1 (amended), for the program of `main`: 100 goroutines on "counter" against a map that
holds nothing. However they are scheduled, once all have exited the key holds exactly 100
and the final read of `main` returns it; and they can be scheduled to their exit. -/
theorem concurrent_increment_total_witness :
    Coordinator.empty.connected = true ∧ Coordinator.empty.unlocked Main.key ∧
    Coordinator.empty.values Main.key = .nil ∧ inInt64 0 ∧
    (∀ (sched : List Nat) (s : System),
      System.run Main.key sched Main.started = some s → s.allExited = true →
        s.coord.values Main.key = .int64 100 ∧
        Main.lastValue s = .done (.ok (.int64 100)) s.coord) ∧
    (∃ sched s, System.run Main.key sched Main.started = some s ∧ s.allExited = true) :=
  have h := concurrent_increment_total Main.key Main.goroutineCount Coordinator.empty 0 rfl
    (Or.inl rfl) (Or.inl ⟨rfl, rfl⟩) (by decide)
  have h100 : ∀ (sched : List Nat) (s : System),
      System.run Main.key sched Main.started = some s → s.allExited = true →
        s.coord.values Main.key = .int64 100 :=
    fun sched s hrun hall => ((h.1 sched s hrun hall).2.1 (by decide)).trans (by decide)
  ⟨rfl, Or.inl rfl, rfl, by decide,
    fun sched s hrun hall =>
      ⟨h100 sched s hrun hall,
        ((h.1 sched s hrun hall).2.2.1).trans (by rw [h100 sched s hrun hall])⟩,
    h.2.1 [] _ rfl⟩

/-- C6: while a context `A` holds the key, `unlock` with a context `B` that is not the same
holder fails with `NotOwnerError` and leaves the coordinator, so the holder and the hold
count, as they were; an `unlock` of the key can only succeed with a context of the holder's
identity; the holder itself can unlock the key, and a context derived from the holder is
of the holder's identity and can unlock it too. -/
theorem Coordinator.unlock_not_owner (s : Coordinator) (key : String) (A B : LockContext)
    (hA : s.holder key = some A) (hAB : isSameHolder A B = false) :
    s.unlock B key = .done (.error .NotOwnerError) s ∧
    (∀ (ctx : LockContext) (s' : Coordinator),
      s.unlock ctx key = .done (.ok ()) s' → isSameHolder A ctx = true) ∧
    (∃ s', s.unlock A key = .done (.ok ()) s') ∧
    (∀ t : Coordinator, isSameHolder A (t.derive A).1 = true ∧
      ∃ s', s.unlock (t.derive A).1 key = .done (.ok ()) s') := by
  have hent : ∃ e, s.entries key = some e ∧ e.holder = some A := by
    unfold Coordinator.holder at hA
    cases he : s.entries key with
    | none => simp [he] at hA
    | some e => exact ⟨e, rfl, by simpa [he] using hA⟩
  obtain ⟨e, he, hh⟩ := hent
  refine ⟨?_, ?_, ?_, fun t => ⟨isSameHolder_derive A t, ?_⟩⟩
  · simp [Coordinator.unlock, he, hh, hAB]
  · intro ctx s' hu
    by_contra hx
    simp [Coordinator.unlock, he, hh, hx] at hu
  · simp [Coordinator.unlock, he, hh, isSameHolder_refl A]
  · simp [Coordinator.unlock, he, hh, isSameHolder_derive A t]

/-- C6, for two fresh contexts: the first locks "counter", the second cannot unlock it. -/
theorem Coordinator.unlock_not_owner_witness :
    (Coordinator.empty.setEntry "counter" ⟨some ⟨0, 0⟩, 1⟩).holder "counter" = some ⟨0, 0⟩ ∧
    isSameHolder ⟨0, 0⟩ ⟨1, 1⟩ = false ∧
    (match (Coordinator.empty.setEntry "counter" ⟨some ⟨0, 0⟩, 1⟩).unlock ⟨1, 1⟩ "counter" with
      | .done (.error .NotOwnerError) t => t.entries "counter" = some ⟨some ⟨0, 0⟩, 1⟩
      | _ => False) :=
  ⟨by decide, by decide, by
    rw [(Coordinator.unlock_not_owner (Coordinator.empty.setEntry "counter" ⟨some ⟨0, 0⟩, 1⟩)
      "counter" ⟨0, 0⟩ ⟨1, 1⟩ (by decide) (by decide)).1]
    decide⟩

/-- C7: on a coordinator where the key starts unlocked, after any history of operations that
returned without error two contexts that are not the same holder never both have an open
`[lock, unlock]` interval on the key. For goroutines running `lockAndIncrement` on the key,
in every state a schedule can reach: the contexts of two goroutines are not the same holder,
at most one goroutine is between its `Lock` and its `Unlock`, and while one is, no `Lock` of
another can succeed and no call of another changes the ownership table or a stored value,
so the `Lock`, `Get`, `Set`, `Unlock` of one call are not interleaved with those of
another. -/
theorem mutual_exclusion (c : Coordinator) (key : String) (hfree : c.unlocked key) :
    (∀ (history : List FacadeOp) (c' : Coordinator), c.performAll history = some c' →
      ∀ A B : LockContext, isSameHolder A B = false →
        ¬ (0 < openIntervals history A key ∧ 0 < openIntervals history B key)) ∧
    (∀ (N : Nat) (sched : List Nat) (s : System),
      System.run key sched (System.init c N) = some s →
      ∀ (i j : Nat) (gi gj : Goroutine),
        s.goroutines[i]? = some gi → s.goroutines[j]? = some gj → i ≠ j →
        (∀ ci cj, gi.lockCtx = some ci → gj.lockCtx = some cj →
          isSameHolder ci cj = false) ∧
        (gi.inCriticalSection = true →
          gj.inCriticalSection = false ∧
          (∀ (cj : LockContext) (c' : Coordinator),
            gj = .locking cj → s.coord.lock cj key ≠ .done (.ok ()) c') ∧
          (∀ s' : System, s.step key j = some s' →
            s'.coord.entries = s.coord.entries ∧ s'.coord.values = s.coord.values))) := by
  refine ⟨?_, ?_⟩
  · intro history c' hp A B hAB hopen
    have hag : Agrees key c [] := Or.inl ⟨hfree, fun _ => rfl⟩
    have := (hag.performAll_agrees hp).exclusive hopen.1 hopen.2
    simp at this
    rw [this] at hAB
    cases hAB
  · intro N sched s hrun i j gi gj hi hj hij
    have hex : Excl key s := (Excl.init_excl hfree).run_excl hrun
    have hdiff : ∀ ci cj, gi.lockCtx = some ci → gj.lockCtx = some cj →
        isSameHolder ci cj = false := by
      intro ci cj hci hcj
      by_contra hx
      have hg : ci.group = cj.group := by simpa [isSameHolder] using hx
      exact hij (hex.distinct i j gi gj ci cj hi hj hci hcj hg)
    have hout : gi.inCriticalSection = true → gj.inCriticalSection = false := by
      intro hcs
      by_contra hx
      exact hij (hex.mutex hi hj hcs (by simpa using hx))
    refine ⟨hdiff, fun hcs => ⟨hout hcs, ?_, ?_⟩⟩
    · intro cj c' hgj hl
      obtain ⟨ci, hci, hent⟩ := hex.held i gi hi hcs
      have hne := hdiff ci cj hci (by rw [hgj]; rfl)
      unfold Coordinator.lock at hl
      simp only [hent, hne] at hl
      split at hl <;> simp at hl
    · intro s' hs
      exact hex.step_outside hj hi hcs (hout hcs) hs

/-- C7, on an empty map: after the first context has locked "counter", read it and written
it, a `lock` by the second context does not return, and the two contexts never both have an
open interval. -/
theorem mutual_exclusion_witness :
    Coordinator.empty.unlocked "counter" ∧
    (Coordinator.empty.performAll
      [.lock ⟨0, 0⟩ "counter", .get (some ⟨0, 0⟩) "counter",
        .set (some ⟨0, 0⟩) "counter" (.int64 1), .lock ⟨1, 1⟩ "counter"]).isSome = false ∧
    (Coordinator.empty.performAll
      [.lock ⟨0, 0⟩ "counter", .get (some ⟨0, 0⟩) "counter",
        .set (some ⟨0, 0⟩) "counter" (.int64 1), .unlock ⟨0, 0⟩ "counter",
        .lock ⟨1, 1⟩ "counter"]).isSome = true ∧
    ¬ (0 < openIntervals
          [.lock ⟨0, 0⟩ "counter", .get (some ⟨0, 0⟩) "counter",
            .set (some ⟨0, 0⟩) "counter" (.int64 1), .unlock ⟨0, 0⟩ "counter",
            .lock ⟨1, 1⟩ "counter"] ⟨0, 0⟩ "counter" ∧
        0 < openIntervals
          [.lock ⟨0, 0⟩ "counter", .get (some ⟨0, 0⟩) "counter",
            .set (some ⟨0, 0⟩) "counter" (.int64 1), .unlock ⟨0, 0⟩ "counter",
            .lock ⟨1, 1⟩ "counter"] ⟨1, 1⟩ "counter") :=
  ⟨Or.inl rfl, by decide, by decide,
    (mutual_exclusion Coordinator.empty "counter" (Or.inl rfl)).1 _
      ((Coordinator.empty.performAll
        [.lock ⟨0, 0⟩ "counter", .get (some ⟨0, 0⟩) "counter",
          .set (some ⟨0, 0⟩) "counter" (.int64 1), .unlock ⟨0, 0⟩ "counter",
          .lock ⟨1, 1⟩ "counter"]).get (by decide)) (by simp) ⟨0, 0⟩ ⟨1, 1⟩ (by decide)⟩

end Hazelcast
